import Mathlib

/-!
# Keyboard driver (`student-distrib/keyboard.c`)

A shallow embedding of the keyboard interrupt handler, the line buffer and the
terminal read and write calls, followed by the properties established about
them.

Conventions of the embedding:

* The file-level globals of `keyboard.c` are the fields of `DriverState`.
* `uint8_t` variables are natural numbers; arithmetic on them is reduced
  modulo 256.  `int` variables are integers; the one increment that can leave
  the 32-bit range, the unguarded `++char_count` of `get_char`, is reduced
  with `wrap_int32`.
* `char_buffer` and the caller's buffer are maps from an `int` index to the
  byte stored there (`a[i]`); the array `char_buffer` occupies indices `0..127`.
* Calls into the rest of the kernel (`cli`, `sti`, `send_eoi`, `putc`,
  `clear`, `outb`) are recorded, in program order, in the `trace` field.
-/

namespace Keyboard

/-! ## Constants -/

def KEYBOARD_IRQ_NUM : Nat := 1
def SCANCODES_SIZE : Nat := 58
def BUFFER_MAX : Int := 127

def LEFT_SHIFT_PRESS : Nat := 0x2A
def LEFT_SHIFT_RELEASE : Nat := 0xAA
def RIGHT_SHIFT_PRESS : Nat := 0x36
def RIGHT_SHIFT_RELEASE : Nat := 0xB6
def CTRL_PRESS : Nat := 0x1D
def CTRL_RELEASE : Nat := 0x9D
def CAPS_PRESS : Nat := 0x3A

def BCKSPACE : Char := Char.ofNat 0x08
def ENTER : Char := Char.ofNat 0x0A
def NUL : Char := Char.ofNat 0x0

def Q_UP_LIMIT : Nat := 0x10
def P_LOW_LIMIT : Nat := 0x19
def A_UP_LIMIT : Nat := 0x1E
def L_LOW_LIMIT : Nat := 0x26
def Z_UP_LIMIT : Nat := 0x2C
def M_LOW_LIMIT : Nat := 0x32

def BUFFER_SIZE : Int := 128

/-! ## Calls into the rest of the kernel -/

/-- The byte handed to `outb`.  The cursor position is
`screen_y * NUM_COLS + screen_x`, two variables owned by `lib.c`; its low and
high bytes are kept symbolic. -/
inductive PortByte
  | lit (n : Nat)
  | position_low
  | position_high
  deriving DecidableEq

/-- An externally visible call made by the driver. -/
inductive Event
  | cli
  | sti
  | send_eoi (irq : Nat)
  | putc (c : Char)
  | clear
  | outb (data : PortByte) (port : Nat)
  deriving DecidableEq

/-! ## Driver state -/

/-- The globals of `keyboard.c`, together with the calls made so far. -/
structure DriverState where
  l_shift_flag : Nat
  r_shift_flag : Nat
  ctrl_flag : Nat
  caps_flag : Nat
  enter_flag : Int
  char_count : Int
  char_buffer : Int → Char
  num_char : Int
  trace : List Event

/-- The state at driver start: every global is zero-initialised. -/
def init : DriverState :=
  { l_shift_flag := 0, r_shift_flag := 0, ctrl_flag := 0, caps_flag := 0,
    enter_flag := 0, char_count := 0, char_buffer := fun _ => NUL,
    num_char := 0, trace := [] }

/-- The table `scan_to_ascii[SCANCODES_SIZE][2]`, one `(base, shifted)` pair
per scancode. -/
def scan_to_ascii_table : List (Char × Char) :=
  [ (NUL, NUL), (NUL, NUL),
    ('1', '!'), ('2', '@'),
    ('3', '#'), ('4', '$'),
    ('5', '%'), ('6', '^'),
    ('7', '&'), ('8', '*'),
    ('9', '('), ('0', ')'),
    ('-', '_'), ('=', '+'),
    (BCKSPACE, BCKSPACE), (' ', ' '),
    ('q', 'Q'), ('w', 'W'),
    ('e', 'E'), ('r', 'R'),
    ('t', 'T'), ('y', 'Y'),
    ('u', 'U'), ('i', 'I'),
    ('o', 'O'), ('p', 'P'),
    ('[', Char.ofNat 0x7B), (']', Char.ofNat 0x7D),
    (ENTER, ENTER), (NUL, NUL),
    ('a', 'A'), ('s', 'S'),
    ('d', 'D'), ('f', 'F'),
    ('g', 'G'), ('h', 'H'),
    ('j', 'J'), ('k', 'K'),
    ('l', 'L'), (';', ':'),
    (Char.ofNat 0x27, Char.ofNat 0x22), (Char.ofNat 0x60, '~'),
    (NUL, NUL), (Char.ofNat 0x5C, '|'),
    ('z', 'Z'), ('x', 'X'),
    ('c', 'C'), ('v', 'V'),
    ('b', 'B'), ('n', 'N'),
    ('m', 'M'), (',', '<'),
    ('.', '>'), ('/', '?'),
    (NUL, NUL), (NUL, NUL),
    (NUL, NUL), (' ', ' ') ]

/-- The entry `scan_to_ascii[scan_code][col]`. -/
def scan_to_ascii (scan_code : Nat) (col : Nat) : Char :=
  let e := scan_to_ascii_table.getD scan_code (NUL, NUL)
  if col = 0 then e.1 else e.2

/-! ## External calls -/

def emit (e : Event) (s : DriverState) : DriverState :=
  { s with trace := s.trace ++ [e] }

def cli (s : DriverState) : DriverState := emit Event.cli s
def sti (s : DriverState) : DriverState := emit Event.sti s
def send_eoi (irq : Nat) (s : DriverState) : DriverState := emit (Event.send_eoi irq) s
def putc (c : Char) (s : DriverState) : DriverState := emit (Event.putc c) s
def clear (s : DriverState) : DriverState := emit Event.clear s
def outb (data : PortByte) (port : Nat) (s : DriverState) : DriverState :=
  emit (Event.outb data port) s

/-! ## `check_for_modifier` -/

/-- The function `check_for_modifier`: the returned flag and the updated
globals. -/
def check_for_modifier (scan_code : Nat) (s : DriverState) : Int × DriverState :=
  if scan_code = LEFT_SHIFT_PRESS then (1, { s with l_shift_flag := 1 })
  else if scan_code = LEFT_SHIFT_RELEASE then (1, { s with l_shift_flag := 0 })
  else if scan_code = RIGHT_SHIFT_PRESS then (1, { s with r_shift_flag := 1 })
  else if scan_code = RIGHT_SHIFT_RELEASE then (1, { s with r_shift_flag := 0 })
  else if scan_code = CTRL_PRESS then (1, { s with ctrl_flag := (s.ctrl_flag + 1) % 256 })
  else if scan_code = CTRL_RELEASE then
    (1, { s with ctrl_flag := (s.ctrl_flag + 256 - 1) % 256 })
  else if scan_code = CAPS_PRESS then
    (1, { s with caps_flag := if s.caps_flag = 0 then 1 else 0 })
  else (0, s)

/-! ## `get_char` -/

/-- The value a 32-bit `int` holds after an arithmetic result `x`: `x` reduced
modulo `2^32` into `-2^31 .. 2^31 - 1`, as the two's complement `add` of the
i386 leaves it (the C standard leaves signed overflow undefined). -/
def wrap_int32 (x : Int) : Int := (x + 2147483648) % 4294967296 - 2147483648

/-- The function `get_char`.  Of its updates of `char_count` only the
`++char_count` of the last branch can leave the range of a 32-bit `int`: the
decrement is guarded by `char_count > 0` and the other increment by
`char_count < BUFFER_SIZE - 1`. -/
def get_char (new_char : Char) (s : DriverState) : DriverState :=
  if new_char = '\n' then
    { s with
      enter_flag := 1
      char_buffer :=
        Function.update s.char_buffer
          (if s.char_count ≥ BUFFER_SIZE then BUFFER_SIZE - 1 else s.char_count) '\n' }
  else if new_char = BCKSPACE then
    if s.char_count > 0 then
      let s1 := putc new_char s
      { s1 with char_count := s1.char_count - 1 }
    else s
  else if s.char_count < BUFFER_SIZE - 1 then
    { s with
      char_buffer := Function.update s.char_buffer s.char_count new_char
      char_count := s.char_count + 1 }
  else
    { s with char_count := wrap_int32 (s.char_count + 1) }

/-! ## `keyboard_handler` -/

/-- The test used twice in `keyboard_handler`: the scancode lies in one of the
three regions containing letter keys. -/
def in_letter_region (scan_code : Nat) : Prop :=
  (scan_code ≥ Q_UP_LIMIT ∧ scan_code ≤ P_LOW_LIMIT) ∨
  (scan_code ≥ A_UP_LIMIT ∧ scan_code ≤ L_LOW_LIMIT) ∨
  (scan_code ≥ Z_UP_LIMIT ∧ scan_code ≤ M_LOW_LIMIT)

instance (scan_code : Nat) : Decidable (in_letter_region scan_code) := by
  unfold in_letter_region; infer_instance

/-- The three statements `putc(c); get_char(c); ++num_char;`. -/
def echo_and_store (c : Char) (s : DriverState) : DriverState :=
  let s1 := get_char c (putc c s)
  { s1 with num_char := s1.num_char + 1 }

/-- The part of `keyboard_handler` between the two early exits and the final
`send_eoi`: the `if`/`else if` chain over the decoded key. -/
def handle_key (scan_code : Nat) (s : DriverState) : DriverState :=
  if scan_to_ascii scan_code 0 = '\n' then
    let s1 := { s with num_char := 0 }
    get_char (scan_to_ascii scan_code 0) (putc (scan_to_ascii scan_code 0) s1)
  else if s.ctrl_flag > 0 ∧ scan_to_ascii scan_code 0 = 'l' then
    let s1 := clear s
    let s2 := outb (PortByte.lit 0x0F) 0x3D4 s1
    let s3 := outb PortByte.position_low 0x3D5 s2
    let s4 := outb (PortByte.lit 0x0E) 0x3D4 s3
    outb PortByte.position_high 0x3D5 s4
  else if scan_to_ascii scan_code 0 = BCKSPACE then
    if s.num_char > 0 then
      let s1 := get_char (scan_to_ascii scan_code 0) (putc (scan_to_ascii scan_code 0) s)
      { s1 with num_char := s1.num_char - 1 }
    else s
  else if (s.l_shift_flag ≠ 0 ∨ s.r_shift_flag ≠ 0) ∧ s.num_char < BUFFER_MAX then
    if s.caps_flag ≠ 0 ∧ in_letter_region scan_code then
      echo_and_store (scan_to_ascii scan_code 0) s
    else
      echo_and_store (scan_to_ascii scan_code 1) s
  else if s.caps_flag ≠ 0 ∧ s.num_char < BUFFER_MAX then
    if in_letter_region scan_code then
      echo_and_store (scan_to_ascii scan_code 1) s
    else
      echo_and_store (scan_to_ascii scan_code 0) s
  else if s.num_char < BUFFER_MAX then
    echo_and_store (scan_to_ascii scan_code 0) s
  else s

/-- The interrupt handler `keyboard_handler`; `scan_code` is the byte read by
`inb(KEYBOARD_DATA_PORT)`. -/
def keyboard_handler (scan_code : Nat) (s : DriverState) : DriverState :=
  let s1 := cli s
  let r := check_for_modifier scan_code s1
  if r.1 ≠ 0 then sti (send_eoi KEYBOARD_IRQ_NUM r.2)
  else if scan_code ≥ SCANCODES_SIZE ∨ scan_code ≤ 1 then
    sti (send_eoi KEYBOARD_IRQ_NUM r.2)
  else sti (send_eoi KEYBOARD_IRQ_NUM (handle_key scan_code r.2))

/-- Successive interrupts, one per scancode of the list. -/
def handle_keys (scan_codes : List Nat) (s : DriverState) : DriverState :=
  scan_codes.foldl (fun st sc => keyboard_handler sc st) s

/-! ## `terminal_read` -/

/-- What the copy loops of `terminal_read` leave behind: the line buffer, the
caller's buffer and `bytes_read`. -/
structure CopyResult where
  char_buffer : Int → Char
  buf : Int → Char
  bytes_read : Int

/-- The loop of the branch `nbytes < BUFFER_SIZE`, entered at index `i` with
`remaining = nbytes - i` iterations left before `i < nbytes` fails. -/
def copy_loop_small (nbytes : Int) :
    Nat → Int → (Int → Char) → (Int → Char) → CopyResult
  | 0, _, cb, buf => { char_buffer := cb, buf := buf, bytes_read := 0 }
  | remaining + 1, i, cb, buf =>
    let buf1 := Function.update buf i (cb i)
    let cb1 := Function.update cb i ' '
    if buf1 i = '\n' then
      { char_buffer := cb1, buf := buf1, bytes_read := i + 1 }
    else if i = nbytes - 1 ∧ buf1 i ≠ '\n' then
      { char_buffer := cb1, buf := Function.update buf1 i '\n', bytes_read := i + 1 }
    else copy_loop_small nbytes remaining (i + 1) cb1 buf1

/-- The loop of the branch `nbytes >= BUFFER_SIZE`, entered at index `i` with
`remaining = BUFFER_SIZE - i` iterations left before `i < BUFFER_SIZE` fails. -/
def copy_loop_full : Nat → Int → (Int → Char) → (Int → Char) → CopyResult
  | 0, _, cb, buf => { char_buffer := cb, buf := buf, bytes_read := 0 }
  | remaining + 1, i, cb, buf =>
    let buf1 := Function.update buf i (cb i)
    let cb1 := Function.update cb i ' '
    if buf1 i = '\n' then
      { char_buffer := cb1, buf := buf1, bytes_read := i + 1 }
    else copy_loop_full remaining (i + 1) cb1 buf1

/-- What a completed `terminal_read` leaves behind: the driver globals, the
caller's buffer and the returned count. -/
structure ReadResult where
  state : DriverState
  buf : Int → Char
  ret : Int

/-- The function `terminal_read`.  The wait `while(enter_flag == 0){}` is passed
only in a state whose `enter_flag` is set; in a state where it is clear the
call does not return, which is the result `none`. -/
def terminal_read (fd : Int) (buf : Int → Char) (nbytes : Int) (s : DriverState) :
    Option ReadResult :=
  if s.enter_flag = 0 then none
  else
    let s1 := cli s
    let r :=
      if nbytes < BUFFER_SIZE then copy_loop_small nbytes nbytes.toNat 0 s1.char_buffer buf
      else copy_loop_full BUFFER_SIZE.toNat 0 s1.char_buffer buf
    let s2 := { s1 with char_buffer := r.char_buffer, char_count := 0, enter_flag := 0 }
    some { state := sti s2, buf := r.buf, ret := r.bytes_read }

/-! ## `terminal_write` -/

/-- The loop of `terminal_write`, entered at index `i` with
`remaining = nbytes - i` iterations left before `i < nbytes` fails. -/
def write_loop (buf : Int → Char) : Nat → Int → DriverState → DriverState
  | 0, _, s => s
  | remaining + 1, i, s =>
    let curr_char := buf i
    let s1 := if curr_char ≠ NUL then putc curr_char s else s
    write_loop buf remaining (i + 1) s1

/-- The function `terminal_write`: the driver state afterwards and the
returned count. -/
def terminal_write (fd : Int) (buf : Int → Char) (nbytes : Int) (s : DriverState) :
    DriverState × Int :=
  (write_loop buf nbytes.toNat 0 s, nbytes)

/-! ## Array accesses

The indices at which the functions above subscript `char_buffer` and
`scan_to_ascii`, listed in program order along the path that is taken. -/

/-- The indices at which `get_char` subscripts `char_buffer`. -/
def get_char_accesses (new_char : Char) (s : DriverState) : List Int :=
  if new_char = '\n' then
    [if s.char_count ≥ BUFFER_SIZE then BUFFER_SIZE - 1 else s.char_count]
  else if new_char = BCKSPACE then []
  else if s.char_count < BUFFER_SIZE - 1 then [s.char_count]
  else []

/-- The indices at which the key-decoding chain of `keyboard_handler`
subscripts `char_buffer`, all of them inside its calls of `get_char`. -/
def handle_key_buffer_accesses (scan_code : Nat) (s : DriverState) : List Int :=
  if scan_to_ascii scan_code 0 = '\n' then
    let s1 := { s with num_char := 0 }
    get_char_accesses (scan_to_ascii scan_code 0) (putc (scan_to_ascii scan_code 0) s1)
  else if s.ctrl_flag > 0 ∧ scan_to_ascii scan_code 0 = 'l' then []
  else if scan_to_ascii scan_code 0 = BCKSPACE then
    if s.num_char > 0 then
      get_char_accesses (scan_to_ascii scan_code 0) (putc (scan_to_ascii scan_code 0) s)
    else []
  else if (s.l_shift_flag ≠ 0 ∨ s.r_shift_flag ≠ 0) ∧ s.num_char < BUFFER_MAX then
    if s.caps_flag ≠ 0 ∧ in_letter_region scan_code then
      get_char_accesses (scan_to_ascii scan_code 0) (putc (scan_to_ascii scan_code 0) s)
    else
      get_char_accesses (scan_to_ascii scan_code 1) (putc (scan_to_ascii scan_code 1) s)
  else if s.caps_flag ≠ 0 ∧ s.num_char < BUFFER_MAX then
    if in_letter_region scan_code then
      get_char_accesses (scan_to_ascii scan_code 1) (putc (scan_to_ascii scan_code 1) s)
    else
      get_char_accesses (scan_to_ascii scan_code 0) (putc (scan_to_ascii scan_code 0) s)
  else if s.num_char < BUFFER_MAX then
    get_char_accesses (scan_to_ascii scan_code 0) (putc (scan_to_ascii scan_code 0) s)
  else []

/-- The `(row, column)` pairs at which the key-decoding chain of
`keyboard_handler` subscripts `scan_to_ascii`: one per test evaluated (the
second operand of `&&` only when the first is true), then the two arguments of
`putc` and `get_char` in the branch taken. -/
def handle_key_table_accesses (scan_code : Nat) (s : DriverState) : List (Nat × Nat) :=
  let t1 := [(scan_code, 0)]
  if scan_to_ascii scan_code 0 = '\n' then t1 ++ [(scan_code, 0), (scan_code, 0)]
  else
    let t2 := t1 ++ (if s.ctrl_flag > 0 then [(scan_code, 0)] else [])
    if s.ctrl_flag > 0 ∧ scan_to_ascii scan_code 0 = 'l' then t2
    else
      let t3 := t2 ++ [(scan_code, 0)]
      if scan_to_ascii scan_code 0 = BCKSPACE then
        if s.num_char > 0 then t3 ++ [(scan_code, 0), (scan_code, 0)] else t3
      else if (s.l_shift_flag ≠ 0 ∨ s.r_shift_flag ≠ 0) ∧ s.num_char < BUFFER_MAX then
        if s.caps_flag ≠ 0 ∧ in_letter_region scan_code then
          t3 ++ [(scan_code, 0), (scan_code, 0)]
        else t3 ++ [(scan_code, 1), (scan_code, 1)]
      else if s.caps_flag ≠ 0 ∧ s.num_char < BUFFER_MAX then
        if in_letter_region scan_code then t3 ++ [(scan_code, 1), (scan_code, 1)]
        else t3 ++ [(scan_code, 0), (scan_code, 0)]
      else if s.num_char < BUFFER_MAX then t3 ++ [(scan_code, 0), (scan_code, 0)]
      else t3

/-- The indices at which one `keyboard_handler` invocation subscripts
`char_buffer`: none on the two early exits. -/
def keyboard_handler_buffer_accesses (scan_code : Nat) (s : DriverState) : List Int :=
  let s1 := cli s
  let r := check_for_modifier scan_code s1
  if r.1 ≠ 0 then []
  else if scan_code ≥ SCANCODES_SIZE ∨ scan_code ≤ 1 then []
  else handle_key_buffer_accesses scan_code r.2

/-- The `(row, column)` pairs at which one `keyboard_handler` invocation
subscripts `scan_to_ascii`: none on the two early exits. -/
def keyboard_handler_table_accesses (scan_code : Nat) (s : DriverState) : List (Nat × Nat) :=
  let s1 := cli s
  let r := check_for_modifier scan_code s1
  if r.1 ≠ 0 then []
  else if scan_code ≥ SCANCODES_SIZE ∨ scan_code ≤ 1 then []
  else handle_key_table_accesses scan_code r.2

/-- The indices `i` at which the loop of the branch `nbytes < BUFFER_SIZE`
subscripts `char_buffer`, one per iteration run. -/
def copy_loop_small_accesses (nbytes : Int) : Nat → Int → (Int → Char) → List Int
  | 0, _, _ => []
  | remaining + 1, i, cb =>
    if cb i = '\n' then [i]
    else if i = nbytes - 1 ∧ cb i ≠ '\n' then [i]
    else i :: copy_loop_small_accesses nbytes remaining (i + 1) (Function.update cb i ' ')

/-- The indices `i` at which the loop of the branch `nbytes >= BUFFER_SIZE`
subscripts `char_buffer`, one per iteration run. -/
def copy_loop_full_accesses : Nat → Int → (Int → Char) → List Int
  | 0, _, _ => []
  | remaining + 1, i, cb =>
    if cb i = '\n' then [i]
    else i :: copy_loop_full_accesses remaining (i + 1) (Function.update cb i ' ')

/-- The indices at which a `terminal_read` call that gets past its wait
subscripts `char_buffer`. -/
def terminal_read_accesses (nbytes : Int) (s : DriverState) : List Int :=
  if s.enter_flag = 0 then []
  else if nbytes < BUFFER_SIZE then
    copy_loop_small_accesses nbytes nbytes.toNat 0 s.char_buffer
  else copy_loop_full_accesses BUFFER_SIZE.toNat 0 s.char_buffer

/-! ## Reachable states -/

/-- The states the driver can be in: the initial state, and every state
obtained from one of them by a keyboard interrupt or by a `terminal_read` call
that returns. -/
inductive Reachable : DriverState → Prop
  | start : Reachable init
  | key (scan_code : Nat) (s : DriverState) :
      Reachable s → Reachable (keyboard_handler scan_code s)
  | read (fd : Int) (buf : Int → Char) (nbytes : Int) (s : DriverState) (r : ReadResult) :
      Reachable s → terminal_read fd buf nbytes s = some r → Reachable r.state

/-- The seven scancodes recognised by `check_for_modifier`. -/
def modifier_codes : List Nat := [0x2A, 0xAA, 0x36, 0xB6, 0x1D, 0x9D, 0x3A]

/-- A scancode of the table region whose base table entry is a character to be
typed: not NUL, not Enter, not Backspace. -/
def printable_code (scan_code : Nat) : Prop :=
  2 ≤ scan_code ∧ scan_code < 58 ∧ scan_to_ascii scan_code 0 ≠ NUL ∧
  scan_to_ascii scan_code 0 ≠ '\n' ∧ scan_to_ascii scan_code 0 ≠ BCKSPACE

instance (scan_code : Nat) : Decidable (printable_code scan_code) := by
  unfold printable_code; infer_instance

/-- Specification of character resolution, in the words of the claim: the
shifted table variant exactly when (a shift key is held) XOR (caps-lock is
active and the scancode lies in a letter region), the base variant otherwise. -/
def spec_resolved_char (scan_code : Nat) (s : DriverState) : Char :=
  if Xor' (s.l_shift_flag ≠ 0 ∨ s.r_shift_flag ≠ 0)
      (s.caps_flag ≠ 0 ∧ in_letter_region scan_code) then
    scan_to_ascii scan_code 1
  else scan_to_ascii scan_code 0

/-- A key that reaches the Backspace branch or one of the character branches
of `keyboard_handler` in state `s`: no modifier code, inside the table region,
not Enter, and not ctrl+`l`. -/
def edits_line (scan_code : Nat) (s : DriverState) : Prop :=
  scan_code ∉ modifier_codes ∧ 2 ≤ scan_code ∧ scan_code < 58 ∧
  scan_to_ascii scan_code 0 ≠ '\n' ∧ ¬ (s.ctrl_flag > 0 ∧ scan_to_ascii scan_code 0 = 'l')

/-- The states the driver reaches when no line-editing key arrives while a
committed line waits to be read: as `Reachable`, except that a key handled
while `enter_flag` is set is a modifier, an ignored code, Enter or ctrl+`l`. -/
inductive ReachableNoTypeAhead : DriverState → Prop
  | start : ReachableNoTypeAhead init
  | key (scan_code : Nat) (s : DriverState) :
      ReachableNoTypeAhead s → (s.enter_flag ≠ 0 → ¬ edits_line scan_code s) →
      ReachableNoTypeAhead (keyboard_handler scan_code s)
  | read (fd : Int) (buf : Int → Char) (nbytes : Int) (s : DriverState) (r : ReadResult) :
      ReachableNoTypeAhead s → terminal_read fd buf nbytes s = some r →
      ReachableNoTypeAhead r.state

/-- One round of typing ahead of the reader: the Enter key, then the key `a`,
with no `terminal_read` in between. -/
def type_ahead_round (s : DriverState) : DriverState :=
  keyboard_handler 0x1E (keyboard_handler 0x1C s)

/-- A call that changes what the screen shows: `putc`, `clear` or `outb`. -/
def is_display_call : Event → Bool
  | Event.putc _ => true
  | Event.clear => true
  | Event.outb _ _ => true
  | _ => false

/-- State `s2` has the trace of `s1` followed by display calls only. -/
def adds_display_calls (s1 s2 : DriverState) : Prop :=
  ∃ body : List Event, (∀ e ∈ body, is_display_call e = true) ∧ s2.trace = s1.trace ++ body

/-! ## Program order inside the interrupt handler

The statements of `keyboard_handler` and of the functions it calls, listed in
program order along the path taken: every call into the rest of the kernel and
every assignment to a global of the driver. -/

/-- One executed statement: a call or an assignment to a global. -/
inductive Step
  | call (e : Event)
  | set_l_shift_flag (v : Nat)
  | set_r_shift_flag (v : Nat)
  | set_ctrl_flag (v : Nat)
  | set_caps_flag (v : Nat)
  | set_enter_flag (v : Int)
  | set_char_count (v : Int)
  | set_char_buffer (i : Int) (c : Char)
  | set_num_char (v : Int)
  deriving DecidableEq

/-- The effect of one statement on the driver state. -/
def run_step (s : DriverState) : Step → DriverState
  | Step.call e => emit e s
  | Step.set_l_shift_flag v => { s with l_shift_flag := v }
  | Step.set_r_shift_flag v => { s with r_shift_flag := v }
  | Step.set_ctrl_flag v => { s with ctrl_flag := v }
  | Step.set_caps_flag v => { s with caps_flag := v }
  | Step.set_enter_flag v => { s with enter_flag := v }
  | Step.set_char_count v => { s with char_count := v }
  | Step.set_char_buffer i c => { s with char_buffer := Function.update s.char_buffer i c }
  | Step.set_num_char v => { s with num_char := v }

/-- The effect of a list of statements, run in order. -/
def run_steps (steps : List Step) (s : DriverState) : DriverState :=
  steps.foldl run_step s

/-- A statement that may stand between `cli` and `send_eoi`: an assignment to
a global or a display call. -/
def is_body_step : Step → Bool
  | Step.call e => is_display_call e
  | _ => true

/-- The statements executed by `check_for_modifier`. -/
def check_for_modifier_steps (scan_code : Nat) (s : DriverState) : List Step :=
  if scan_code = LEFT_SHIFT_PRESS then [Step.set_l_shift_flag 1]
  else if scan_code = LEFT_SHIFT_RELEASE then [Step.set_l_shift_flag 0]
  else if scan_code = RIGHT_SHIFT_PRESS then [Step.set_r_shift_flag 1]
  else if scan_code = RIGHT_SHIFT_RELEASE then [Step.set_r_shift_flag 0]
  else if scan_code = CTRL_PRESS then [Step.set_ctrl_flag ((s.ctrl_flag + 1) % 256)]
  else if scan_code = CTRL_RELEASE then [Step.set_ctrl_flag ((s.ctrl_flag + 256 - 1) % 256)]
  else if scan_code = CAPS_PRESS then [Step.set_caps_flag (if s.caps_flag = 0 then 1 else 0)]
  else []

/-- The statements executed by `get_char`. -/
def get_char_steps (new_char : Char) (s : DriverState) : List Step :=
  if new_char = '\n' then
    [Step.set_enter_flag 1,
     Step.set_char_buffer
       (if s.char_count ≥ BUFFER_SIZE then BUFFER_SIZE - 1 else s.char_count) '\n']
  else if new_char = BCKSPACE then
    if s.char_count > 0 then
      [Step.call (Event.putc new_char), Step.set_char_count (s.char_count - 1)]
    else []
  else if s.char_count < BUFFER_SIZE - 1 then
    [Step.set_char_buffer s.char_count new_char, Step.set_char_count (s.char_count + 1)]
  else
    [Step.set_char_count (wrap_int32 (s.char_count + 1))]

/-- The statements `putc(c); get_char(c); ++num_char;`. -/
def echo_and_store_steps (c : Char) (s : DriverState) : List Step :=
  [Step.call (Event.putc c)] ++ get_char_steps c (putc c s) ++
    [Step.set_num_char ((get_char c (putc c s)).num_char + 1)]

/-- The statements executed by the key-decoding chain of `keyboard_handler`. -/
def handle_key_steps (scan_code : Nat) (s : DriverState) : List Step :=
  if scan_to_ascii scan_code 0 = '\n' then
    let s1 := { s with num_char := 0 }
    [Step.set_num_char 0, Step.call (Event.putc (scan_to_ascii scan_code 0))] ++
      get_char_steps (scan_to_ascii scan_code 0) (putc (scan_to_ascii scan_code 0) s1)
  else if s.ctrl_flag > 0 ∧ scan_to_ascii scan_code 0 = 'l' then
    [Step.call Event.clear,
     Step.call (Event.outb (PortByte.lit 0x0F) 0x3D4),
     Step.call (Event.outb PortByte.position_low 0x3D5),
     Step.call (Event.outb (PortByte.lit 0x0E) 0x3D4),
     Step.call (Event.outb PortByte.position_high 0x3D5)]
  else if scan_to_ascii scan_code 0 = BCKSPACE then
    if s.num_char > 0 then
      [Step.call (Event.putc (scan_to_ascii scan_code 0))] ++
        get_char_steps (scan_to_ascii scan_code 0) (putc (scan_to_ascii scan_code 0) s) ++
        [Step.set_num_char
          ((get_char (scan_to_ascii scan_code 0)
            (putc (scan_to_ascii scan_code 0) s)).num_char - 1)]
    else []
  else if (s.l_shift_flag ≠ 0 ∨ s.r_shift_flag ≠ 0) ∧ s.num_char < BUFFER_MAX then
    if s.caps_flag ≠ 0 ∧ in_letter_region scan_code then
      echo_and_store_steps (scan_to_ascii scan_code 0) s
    else
      echo_and_store_steps (scan_to_ascii scan_code 1) s
  else if s.caps_flag ≠ 0 ∧ s.num_char < BUFFER_MAX then
    if in_letter_region scan_code then
      echo_and_store_steps (scan_to_ascii scan_code 1) s
    else
      echo_and_store_steps (scan_to_ascii scan_code 0) s
  else if s.num_char < BUFFER_MAX then
    echo_and_store_steps (scan_to_ascii scan_code 0) s
  else []

/-- The statements executed by one `keyboard_handler` invocation, from `cli`
to `sti`, on each of its three exits. -/
def keyboard_handler_steps (scan_code : Nat) (s : DriverState) : List Step :=
  let s1 := cli s
  let r := check_for_modifier scan_code s1
  if r.1 ≠ 0 then
    [Step.call Event.cli] ++ check_for_modifier_steps scan_code s1 ++
      [Step.call (Event.send_eoi KEYBOARD_IRQ_NUM), Step.call Event.sti]
  else if scan_code ≥ SCANCODES_SIZE ∨ scan_code ≤ 1 then
    [Step.call Event.cli] ++ check_for_modifier_steps scan_code s1 ++
      [Step.call (Event.send_eoi KEYBOARD_IRQ_NUM), Step.call Event.sti]
  else
    [Step.call Event.cli] ++ check_for_modifier_steps scan_code s1 ++
      handle_key_steps scan_code r.2 ++
      [Step.call (Event.send_eoi KEYBOARD_IRQ_NUM), Step.call Event.sti]

/-! ## Reference model of line editing -/

/-- The state of the reference line editor: which modifiers are active and the
characters of the line typed so far. -/
structure RefState where
  l_shift : Bool
  r_shift : Bool
  caps : Bool
  line : List Char

/-- The reference editor before any key. -/
def ref_init : RefState := { l_shift := false, r_shift := false, caps := false, line := [] }

/-- The character a key decodes to in the reference editor: the shifted table
variant exactly when (a shift is held) XOR (caps-lock is active and the key is
in a letter region). -/
def ref_decode (scan_code : Nat) (r : RefState) : Char :=
  if Xor' (r.l_shift = true ∨ r.r_shift = true)
      (r.caps = true ∧ in_letter_region scan_code) then
    scan_to_ascii scan_code 1
  else scan_to_ascii scan_code 0

/-- One key event of the reference editor: a shift or caps-lock code updates
the modifiers, Backspace deletes the last character of a non-empty line, and a
printable key appends its decoded character if the line has fewer than 127
characters and is dropped otherwise. -/
def ref_step (r : RefState) (scan_code : Nat) : RefState :=
  if scan_code = 0x2A then { r with l_shift := true }
  else if scan_code = 0xAA then { r with l_shift := false }
  else if scan_code = 0x36 then { r with r_shift := true }
  else if scan_code = 0xB6 then { r with r_shift := false }
  else if scan_code = 0x3A then { r with caps := !r.caps }
  else if scan_code = 0x0E then
    if r.line ≠ [] then { r with line := r.line.dropLast } else r
  else if printable_code scan_code then
    if r.line.length < 127 then { r with line := r.line ++ [ref_decode scan_code r] } else r
  else r

/-- The reference line after a sequence of key events. -/
def ref_line (scan_codes : List Nat) : List Char :=
  (scan_codes.foldl ref_step ref_init).line

/-- The key events of the line-editing claim: a printable key, Backspace, or a
shift or caps-lock code (no Enter, no ctrl). -/
def line_event (scan_code : Nat) : Prop :=
  printable_code scan_code ∨ scan_code = 0x0E ∨ scan_code ∈ [0x2A, 0xAA, 0x36, 0xB6, 0x3A]

instance (scan_code : Nat) : Decidable (line_event scan_code) := by
  unfold line_event; infer_instance

/-- The correspondence between a driver state and a reference editor state
that line editing maintains. -/
def matches_ref (s : DriverState) (r : RefState) : Prop :=
  (s.l_shift_flag ≠ 0 ↔ r.l_shift = true) ∧ (s.r_shift_flag ≠ 0 ↔ r.r_shift = true) ∧
  (s.caps_flag ≠ 0 ↔ r.caps = true) ∧ s.ctrl_flag = 0 ∧ s.enter_flag = 0 ∧
  s.num_char = r.line.length ∧ s.char_count = r.line.length ∧ r.line.length ≤ 127 ∧
  (∀ (i : Nat) (h : i < r.line.length), s.char_buffer i = r.line.get ⟨i, h⟩) ∧
  (∀ c ∈ r.line, c ≠ '\n')

/-- The relation between the counters that holds when no line-editing key
arrives while a committed line waits to be read. -/
def counters_agree (s : DriverState) : Prop :=
  (s.enter_flag = 0 → s.num_char = s.char_count) ∧ (s.enter_flag ≠ 0 → s.num_char = 0) ∧
  0 ≤ s.num_char ∧ s.num_char ≤ 127

/-! ## Basic facts about the external calls -/

section frame

variable (e : Event) (s : DriverState)

@[simp] theorem emit_trace : (emit e s).trace = s.trace ++ [e] := rfl
@[simp] theorem emit_l_shift_flag : (emit e s).l_shift_flag = s.l_shift_flag := rfl
@[simp] theorem emit_r_shift_flag : (emit e s).r_shift_flag = s.r_shift_flag := rfl
@[simp] theorem emit_ctrl_flag : (emit e s).ctrl_flag = s.ctrl_flag := rfl
@[simp] theorem emit_caps_flag : (emit e s).caps_flag = s.caps_flag := rfl
@[simp] theorem emit_enter_flag : (emit e s).enter_flag = s.enter_flag := rfl
@[simp] theorem emit_char_count : (emit e s).char_count = s.char_count := rfl
@[simp] theorem emit_char_buffer : (emit e s).char_buffer = s.char_buffer := rfl
end frame

/-- A scancode outside `modifier_codes` falls through the `switch`. -/
theorem check_for_modifier_other (scan_code : Nat) (s : DriverState)
    (h : scan_code ∉ modifier_codes) : check_for_modifier scan_code s = (0, s) := by
  simp only [modifier_codes, List.mem_cons, List.mem_singleton, List.not_mem_nil, or_false,
    not_or] at h
  obtain ⟨h1, h2, h3, h4, h5, h6, h7⟩ := h
  simp [check_for_modifier, LEFT_SHIFT_PRESS, LEFT_SHIFT_RELEASE, RIGHT_SHIFT_PRESS,
    RIGHT_SHIFT_RELEASE, CTRL_PRESS, CTRL_RELEASE, CAPS_PRESS, h1, h2, h3, h4, h5, h6, h7]

/-- A scancode of `modifier_codes` makes `check_for_modifier` return 1. -/
theorem check_for_modifier_fst (scan_code : Nat) (s : DriverState)
    (h : scan_code ∈ modifier_codes) : (check_for_modifier scan_code s).1 = 1 := by
  simp only [modifier_codes, List.mem_cons, List.mem_singleton, List.not_mem_nil, or_false] at h
  rcases h with h | h | h | h | h | h | h <;> subst h <;> rfl

/-- The modifier switch never touches the line buffer, its counters or the trace. -/
theorem check_for_modifier_frame (scan_code : Nat) (s : DriverState) :
    (check_for_modifier scan_code s).2.char_buffer = s.char_buffer ∧
    (check_for_modifier scan_code s).2.char_count = s.char_count ∧
    (check_for_modifier scan_code s).2.enter_flag = s.enter_flag ∧
    (check_for_modifier scan_code s).2.num_char = s.num_char ∧
    (check_for_modifier scan_code s).2.trace = s.trace := by
  unfold check_for_modifier
  split_ifs <;> simp

/-! ## Modifier keys -/

/-- C9: `check_for_modifier` returns 1 exactly on the seven modifier codes,
where it sets or clears `l_shift_flag`, sets or clears `r_shift_flag`, adds or
subtracts one from the `uint8_t` `ctrl_flag`, or toggles `caps_flag`, leaving
every other global alone; on any other code it returns 0 and changes nothing;
and on a modifier code `keyboard_handler` only applies that flag update between
`cli` and `send_eoi(1)`, `sti`. -/
theorem check_for_modifier_contract (scan_code : Nat) (s : DriverState) :
    check_for_modifier 0x2A s = (1, { s with l_shift_flag := 1 }) ∧
    check_for_modifier 0xAA s = (1, { s with l_shift_flag := 0 }) ∧
    check_for_modifier 0x36 s = (1, { s with r_shift_flag := 1 }) ∧
    check_for_modifier 0xB6 s = (1, { s with r_shift_flag := 0 }) ∧
    check_for_modifier 0x1D s = (1, { s with ctrl_flag := (s.ctrl_flag + 1) % 256 }) ∧
    check_for_modifier 0x9D s = (1, { s with ctrl_flag := (s.ctrl_flag + 255) % 256 }) ∧
    check_for_modifier 0x3A s =
      (1, { s with caps_flag := if s.caps_flag = 0 then 1 else 0 }) ∧
    ((check_for_modifier scan_code s).1 = 1 ↔ scan_code ∈ modifier_codes) ∧
    (scan_code ∉ modifier_codes → check_for_modifier scan_code s = (0, s)) ∧
    (scan_code ∈ modifier_codes →
      keyboard_handler scan_code s =
        { (check_for_modifier scan_code s).2 with
          trace := s.trace ++ [Event.cli, Event.send_eoi 1, Event.sti] } ∧
      (keyboard_handler scan_code s).char_buffer = s.char_buffer ∧
      (keyboard_handler scan_code s).char_count = s.char_count ∧
      (keyboard_handler scan_code s).enter_flag = s.enter_flag ∧
      (keyboard_handler scan_code s).num_char = s.num_char) := by
  refine ⟨rfl, rfl, rfl, rfl, rfl, rfl, rfl, ⟨?_, check_for_modifier_fst scan_code s⟩,
    check_for_modifier_other scan_code s, ?_⟩
  · intro h
    by_contra hn
    rw [check_for_modifier_other scan_code s hn] at h
    simp at h
  · intro h
    have h1 : (check_for_modifier scan_code (cli s)).1 = 1 := check_for_modifier_fst _ _ h
    have hk : keyboard_handler scan_code s =
        sti (send_eoi KEYBOARD_IRQ_NUM (check_for_modifier scan_code (cli s)).2) := by
      simp [keyboard_handler, h1]
    simp only [modifier_codes, List.mem_cons, List.mem_singleton, List.not_mem_nil,
      or_false] at h
    rw [hk]
    rcases h with h | h | h | h | h | h | h <;> subst h <;>
      simp [check_for_modifier, sti, send_eoi, cli, emit, KEYBOARD_IRQ_NUM, LEFT_SHIFT_PRESS,
        LEFT_SHIFT_RELEASE, RIGHT_SHIFT_PRESS, RIGHT_SHIFT_RELEASE, CTRL_PRESS, CTRL_RELEASE,
        CAPS_PRESS]

/-- C9, at concrete inputs: scancode 0x10 is no modifier and leaves the initial
state alone; scancode 0x1D is one and the handler only raises `ctrl_flag`. -/
theorem check_for_modifier_contract_witness :
    0x10 ∉ modifier_codes ∧ check_for_modifier 0x10 init = (0, init) ∧
    0x1D ∈ modifier_codes ∧ (keyboard_handler 0x1D init).num_char = init.num_char := by
  refine ⟨by decide, (check_for_modifier_contract 0x10 init).2.2.2.2.2.2.2.2.1 (by decide),
    by decide, ?_⟩
  exact ((check_for_modifier_contract 0x1D init).2.2.2.2.2.2.2.2.2 (by decide)).2.2.2.2

/-- C10, refuted at the initial state: the ctrl-release code 0x9D leaves
`ctrl_flag` at 255, not below zero, so the ctrl-held test `ctrl_flag > 0` is
true, and a following 0x26 clears the screen and neither echoes `l` nor puts it
into the line buffer. -/
theorem ctrl_release_underflow_counterexample :
    (keyboard_handler 0x9D init).ctrl_flag = 255 ∧
    (keyboard_handler 0x9D init).ctrl_flag > 0 ∧
    Event.clear ∈ (handle_keys [0x9D, 0x26] init).trace ∧
    Event.putc 'l' ∉ (handle_keys [0x9D, 0x26] init).trace ∧
    (handle_keys [0x9D, 0x26] init).char_buffer 0 ≠ 'l' ∧
    (handle_keys [0x9D, 0x26] init).char_count = 0 := by
  decide

/-- C10, as the code behaves: in a state whose `ctrl_flag` is 0 the
ctrl-release code 0x9D wraps the `uint8_t` `ctrl_flag` to 255, so the ctrl-held
test `ctrl_flag > 0` is true and a following 0x26 clears the screen and
reprograms the cursor, leaving the line buffer and both counters as they were. -/
theorem ctrl_release_underflow_wraps (s : DriverState) (h : s.ctrl_flag = 0) :
    (keyboard_handler 0x9D s).ctrl_flag = 255 ∧
    (handle_keys [0x9D, 0x26] s).trace =
      s.trace ++ [Event.cli, Event.send_eoi 1, Event.sti, Event.cli, Event.clear,
        Event.outb (PortByte.lit 0x0F) 0x3D4, Event.outb PortByte.position_low 0x3D5,
        Event.outb (PortByte.lit 0x0E) 0x3D4, Event.outb PortByte.position_high 0x3D5,
        Event.send_eoi 1, Event.sti] ∧
    (handle_keys [0x9D, 0x26] s).char_buffer = s.char_buffer ∧
    (handle_keys [0x9D, 0x26] s).char_count = s.char_count ∧
    (handle_keys [0x9D, 0x26] s).enter_flag = s.enter_flag ∧
    (handle_keys [0x9D, 0x26] s).num_char = s.num_char := by
  have h1 : keyboard_handler 0x9D s =
      { s with ctrl_flag := 255, trace := s.trace ++ [Event.cli, Event.send_eoi 1, Event.sti] } := by
    simp [keyboard_handler, check_for_modifier, sti, send_eoi, cli, emit, KEYBOARD_IRQ_NUM,
      LEFT_SHIFT_PRESS, LEFT_SHIFT_RELEASE, RIGHT_SHIFT_PRESS, RIGHT_SHIFT_RELEASE, CTRL_PRESS,
      CTRL_RELEASE, h]
  have hl : scan_to_ascii 0x26 0 = 'l' := by decide
  have hn : ¬ ('l' = '\n') := by decide
  have h2 : handle_keys [0x9D, 0x26] s = keyboard_handler 0x26 (keyboard_handler 0x9D s) := rfl
  rw [h2, h1]
  simp [keyboard_handler, check_for_modifier, handle_key, hl, hn, sti, send_eoi, cli, clear,
    outb, emit, KEYBOARD_IRQ_NUM, SCANCODES_SIZE,
    LEFT_SHIFT_PRESS, LEFT_SHIFT_RELEASE, RIGHT_SHIFT_PRESS, RIGHT_SHIFT_RELEASE, CTRL_PRESS,
    CTRL_RELEASE, CAPS_PRESS]

/-- C10 at the initial state, whose `ctrl_flag` is 0. -/
theorem ctrl_release_underflow_wraps_witness :
    init.ctrl_flag = 0 ∧ (keyboard_handler 0x9D init).ctrl_flag = 255 ∧
    (handle_keys [0x9D, 0x26] init).char_count = init.char_count :=
  ⟨rfl, (ctrl_release_underflow_wraps init rfl).1,
    (ctrl_release_underflow_wraps init rfl).2.2.2.1⟩

/-! ## Scancodes that are not keys -/

/-- C2, at scancode 0x38 (table entry `(NUL, NUL)`, not a modifier code) in the
initial state: the handler echoes the NUL byte with `putc` and counts it as a
character of the line, so `char_count` and `num_char` become 1. -/
theorem nul_entry_is_stored :
    0x38 ∉ modifier_codes ∧ scan_to_ascii 0x38 0 = NUL ∧ scan_to_ascii 0x38 1 = NUL ∧
    (keyboard_handler 0x38 init).char_count = 1 ∧
    (keyboard_handler 0x38 init).num_char = 1 ∧
    (keyboard_handler 0x38 init).trace =
      [Event.cli, Event.putc NUL, Event.send_eoi 1, Event.sti] := by
  decide

/-- A scancode that is no modifier and lies outside the table region `2..57`
is dropped: only `cli`, `send_eoi(1)`, `sti` happen. -/
theorem out_of_range_dropped (scan_code : Nat) (s : DriverState)
    (hm : scan_code ∉ modifier_codes) (hr : scan_code ≤ 1 ∨ 58 ≤ scan_code) :
    keyboard_handler scan_code s =
      { s with trace := s.trace ++ [Event.cli, Event.send_eoi 1, Event.sti] } := by
  have hr2 : scan_code ≥ SCANCODES_SIZE ∨ scan_code ≤ 1 := by
    unfold SCANCODES_SIZE; omega
  simp [keyboard_handler, check_for_modifier_other _ _ hm, hr2, sti, send_eoi, cli, emit,
    KEYBOARD_IRQ_NUM]

/-! ## The copy loops of `terminal_read` -/

/-- The loop of the branch `nbytes >= BUFFER_SIZE` when the first newline at or
after `i` is at index `j`, reached before the loop bound: slots `i..j` are
copied and cleared, and `bytes_read` is `j + 1`. -/
theorem copy_loop_full_found (remaining : Nat) :
    ∀ (i j : Int) (cb buf : Int → Char), i ≤ j → j < i + remaining → cb j = '\n' →
      (∀ m, i ≤ m → m < j → cb m ≠ '\n') →
      copy_loop_full remaining i cb buf =
        { char_buffer := fun m => if i ≤ m ∧ m ≤ j then ' ' else cb m,
          buf := fun m => if i ≤ m ∧ m ≤ j then cb m else buf m,
          bytes_read := j + 1 } := by
  induction remaining with
  | zero => intro i j cb buf h1 h2; simp at h2; omega
  | succ n ih =>
    intro i j cb buf h1 h2 hj hlt
    by_cases hij : i = j
    · subst hij
      have hc : copy_loop_full (n + 1) i cb buf =
          { char_buffer := Function.update cb i ' ', buf := Function.update buf i (cb i),
            bytes_read := i + 1 } := by
        simp [copy_loop_full, hj]
      rw [hc]
      simp only [CopyResult.mk.injEq, and_true]
      constructor <;> funext m <;> simp only [Function.update_apply] <;> split_ifs <;>
        first | rfl | (exfalso; omega) | (subst_vars; rfl)
    · have hi : cb i ≠ '\n' := hlt i le_rfl (by omega)
      have hji : j ≠ i := fun h => hij h.symm
      have hc : copy_loop_full (n + 1) i cb buf =
          copy_loop_full n (i + 1) (Function.update cb i ' ') (Function.update buf i (cb i)) := by
        simp [copy_loop_full, hi]
      rw [hc, ih (i + 1) j _ _ (by omega) (by push_cast at h2; omega)
        (by rw [Function.update_noteq hji]; exact hj)
        (by
          intro m hm1 hm2
          rw [Function.update_noteq (by omega)]
          exact hlt m (by omega) hm2)]
      simp only [CopyResult.mk.injEq, and_true]
      constructor <;> funext m <;> simp only [Function.update_apply] <;> split_ifs <;>
        first | rfl | (exfalso; omega) | (subst_vars; rfl)

/-- The loop of the branch `nbytes >= BUFFER_SIZE` when no slot from `i` up to
the loop bound holds a newline: every such slot is copied and cleared, and
`bytes_read` keeps its initial value 0. -/
theorem copy_loop_full_none (remaining : Nat) :
    ∀ (i : Int) (cb buf : Int → Char), (∀ m, i ≤ m → m < i + remaining → cb m ≠ '\n') →
      copy_loop_full remaining i cb buf =
        { char_buffer := fun m => if i ≤ m ∧ m < i + remaining then ' ' else cb m,
          buf := fun m => if i ≤ m ∧ m < i + remaining then cb m else buf m,
          bytes_read := 0 } := by
  induction remaining with
  | zero =>
    intro i cb buf _
    simp only [copy_loop_full, CopyResult.mk.injEq, and_true]
    constructor <;> funext m <;> split_ifs <;> first | rfl | (exfalso; omega)
  | succ n ih =>
    intro i cb buf hlt
    have hi : cb i ≠ '\n' := hlt i le_rfl (by omega)
    have hc : copy_loop_full (n + 1) i cb buf =
        copy_loop_full n (i + 1) (Function.update cb i ' ') (Function.update buf i (cb i)) := by
      simp [copy_loop_full, hi]
    rw [hc, ih (i + 1) _ _ (by
      intro m hm1 hm2
      rw [Function.update_noteq (by omega)]
      exact hlt m (by omega) (by omega))]
    simp only [CopyResult.mk.injEq, and_true]
    constructor <;> funext m <;> simp only [Function.update_apply] <;> split_ifs <;>
      first | rfl | (exfalso; omega) | (subst_vars; rfl)

/-- The loop of the branch `nbytes < BUFFER_SIZE` when the first newline at or
after `i` is at index `j`, below `nbytes`: slots `i..j` are copied and cleared,
and `bytes_read` is `j + 1`. -/
theorem copy_loop_small_found (nbytes : Int) (remaining : Nat) :
    ∀ (i j : Int) (cb buf : Int → Char), i ≤ j → j < i + remaining →
      i + remaining ≤ nbytes → cb j = '\n' → (∀ m, i ≤ m → m < j → cb m ≠ '\n') →
      copy_loop_small nbytes remaining i cb buf =
        { char_buffer := fun m => if i ≤ m ∧ m ≤ j then ' ' else cb m,
          buf := fun m => if i ≤ m ∧ m ≤ j then cb m else buf m,
          bytes_read := j + 1 } := by
  induction remaining with
  | zero => intro i j cb buf h1 h2; simp at h2; omega
  | succ n ih =>
    intro i j cb buf h1 h2 hb hj hlt
    by_cases hij : i = j
    · subst hij
      have hc : copy_loop_small nbytes (n + 1) i cb buf =
          { char_buffer := Function.update cb i ' ', buf := Function.update buf i (cb i),
            bytes_read := i + 1 } := by
        simp [copy_loop_small, hj]
      rw [hc]
      simp only [CopyResult.mk.injEq, and_true]
      constructor <;> funext m <;> simp only [Function.update_apply] <;> split_ifs <;>
        first | rfl | (exfalso; omega) | (subst_vars; rfl)
    · have hi : cb i ≠ '\n' := hlt i le_rfl (by omega)
      have hji : j ≠ i := fun h => hij h.symm
      have hlast : ¬ (i = nbytes - 1) := by omega
      have hc : copy_loop_small nbytes (n + 1) i cb buf =
          copy_loop_small nbytes n (i + 1) (Function.update cb i ' ')
            (Function.update buf i (cb i)) := by
        simp [copy_loop_small, hi, hlast]
      rw [hc, ih (i + 1) j _ _ (by omega) (by push_cast at h2; omega)
        (by push_cast at hb; omega)
        (by rw [Function.update_noteq hji]; exact hj)
        (by
          intro m hm1 hm2
          rw [Function.update_noteq (by omega)]
          exact hlt m (by omega) hm2)]
      simp only [CopyResult.mk.injEq, and_true]
      constructor <;> funext m <;> simp only [Function.update_apply] <;> split_ifs <;>
        first | rfl | (exfalso; omega) | (subst_vars; rfl)

/-- The loop of the branch `nbytes < BUFFER_SIZE` when no slot from `i` up to
`nbytes - 1` holds a newline: every such slot is copied and cleared, the last
one copied, `buf[nbytes - 1]`, is overwritten with a newline, and `bytes_read`
is `nbytes`. -/
theorem copy_loop_small_none (nbytes : Int) (n : Nat) :
    ∀ (i : Int) (cb buf : Int → Char), i + (n + 1 : Nat) = nbytes →
      (∀ m, i ≤ m → m < nbytes → cb m ≠ '\n') →
      copy_loop_small nbytes (n + 1) i cb buf =
        { char_buffer := fun m => if i ≤ m ∧ m < nbytes then ' ' else cb m,
          buf := fun m =>
            if m = nbytes - 1 then '\n' else if i ≤ m ∧ m < nbytes then cb m else buf m,
          bytes_read := nbytes } := by
  induction n with
  | zero =>
    intro i cb buf hb hlt
    have hlast : i = nbytes - 1 := by omega
    subst hlast
    have hi : cb (nbytes - 1) ≠ '\n' := hlt (nbytes - 1) le_rfl (by omega)
    have hc : copy_loop_small nbytes (0 + 1) (nbytes - 1) cb buf =
        { char_buffer := Function.update cb (nbytes - 1) ' ',
          buf := Function.update (Function.update buf (nbytes - 1) (cb (nbytes - 1)))
            (nbytes - 1) '\n',
          bytes_read := nbytes - 1 + 1 } := by
      simp [copy_loop_small, hi]
    rw [hc]
    simp only [CopyResult.mk.injEq]
    refine ⟨?_, ?_, by omega⟩ <;> funext m <;> simp only [Function.update_apply] <;>
      split_ifs <;> first | rfl | (exfalso; omega)
  | succ n ih =>
    intro i cb buf hb hlt
    have hi : cb i ≠ '\n' := hlt i le_rfl (by omega)
    have hlast : ¬ (i = nbytes - 1) := by omega
    have hc : copy_loop_small nbytes (n + 1 + 1) i cb buf =
        copy_loop_small nbytes (n + 1) (i + 1) (Function.update cb i ' ')
          (Function.update buf i (cb i)) := by
      simp [copy_loop_small, hi, hlast]
    rw [hc, ih (i + 1) _ _ (by omega) (by
      intro m hm1 hm2
      rw [Function.update_noteq (by omega)]
      exact hlt m (by omega) hm2)]
    simp only [CopyResult.mk.injEq, and_true]
    constructor <;> funext m <;> simp only [Function.update_apply] <;> split_ifs <;>
      first | rfl | (exfalso; omega) | (subst_vars; rfl)

/-! ## `terminal_read` -/

/-- What `terminal_read` returns in a state whose `enter_flag` is set, in terms
of the copy loop it runs. -/
theorem terminal_read_eq (fd : Int) (buf : Int → Char) (nbytes : Int) (s : DriverState)
    (hflag : s.enter_flag ≠ 0) (c : CopyResult)
    (hc : (if nbytes < BUFFER_SIZE then copy_loop_small nbytes nbytes.toNat 0 s.char_buffer buf
        else copy_loop_full BUFFER_SIZE.toNat 0 s.char_buffer buf) = c) :
    terminal_read fd buf nbytes s =
      some { state := { s with char_buffer := c.char_buffer, char_count := 0, enter_flag := 0,
                               trace := s.trace ++ [Event.cli, Event.sti] },
             buf := c.buf, ret := c.bytes_read } := by
  subst hc
  simp [terminal_read, hflag, cli, sti, emit]

/-- C4: for `1 <= n < 128` and a line buffer whose slots `0..n-1` hold no
newline, `terminal_read(fd, buf, n)`, once past its wait on `enter_flag`,
returns `n`, has copied slots `0..n-2` into `buf`, has put a newline in
`buf[n-1]`, and leaves `char_count = 0` and `enter_flag = 0`. -/
theorem terminal_read_short_forces_newline (fd : Int) (buf : Int → Char) (n : Int)
    (s : DriverState) (hflag : s.enter_flag ≠ 0) (h1 : 1 ≤ n) (h128 : n < 128)
    (hnl : ∀ m, 0 ≤ m → m < n → s.char_buffer m ≠ '\n') :
    ∃ r, terminal_read fd buf n s = some r ∧ r.ret = n ∧
      (∀ m, 0 ≤ m → m < n - 1 → r.buf m = s.char_buffer m) ∧
      r.buf (n - 1) = '\n' ∧ r.state.char_count = 0 ∧ r.state.enter_flag = 0 := by
  obtain ⟨k, hk⟩ : ∃ k : Nat, n.toNat = k + 1 := ⟨n.toNat - 1, by omega⟩
  have hloop := copy_loop_small_none n k 0 s.char_buffer buf (by omega) hnl
  have hlt : n < BUFFER_SIZE := h128
  refine ⟨_, terminal_read_eq fd buf n s hflag _ (by rw [if_pos hlt, hk, hloop]), rfl, ?_, ?_,
    rfl, rfl⟩
  · intro m hm0 hm1
    have h2 : ¬ (m = n - 1) := by omega
    have h3 : 0 ≤ m ∧ m < n := by omega
    simp [h2, h3]
  · simp

/-- C4 with `n = 3`, in the state reached by typing `a`, `b`, `c`, `d` and Enter:
the call returns the three bytes `a`, `b`, newline. -/
theorem terminal_read_short_forces_newline_witness :
    ∃ r, terminal_read 0 (fun _ => 'x') 3 (handle_keys [0x1E, 0x30, 0x2E, 0x20, 0x1C] init)
        = some r ∧ r.ret = 3 ∧
      (∀ m, 0 ≤ m → m < 3 - 1 →
        r.buf m = (handle_keys [0x1E, 0x30, 0x2E, 0x20, 0x1C] init).char_buffer m) ∧
      r.buf (3 - 1) = '\n' ∧ r.state.char_count = 0 ∧ r.state.enter_flag = 0 :=
  terminal_read_short_forces_newline 0 (fun _ => 'x') 3
    (handle_keys [0x1E, 0x30, 0x2E, 0x20, 0x1C] init) (by decide) (by decide) (by decide)
    (by
      intro m h0 h3
      interval_cases m <;> decide)

/-- C5: for `nbytes >= 128` and a line buffer whose first newline is at index
`k < 128`, `terminal_read`, once past its wait on `enter_flag`, returns `k + 1`,
has copied slots `0..k` into `buf`, has overwritten those slots of the line
buffer with a space and has left the slots beyond `k` as they were. -/
theorem terminal_read_full_stops_at_newline (fd : Int) (buf : Int → Char) (nbytes k : Int)
    (s : DriverState) (hflag : s.enter_flag ≠ 0) (hn : 128 ≤ nbytes) (hk0 : 0 ≤ k)
    (hk : k < 128) (hnl : s.char_buffer k = '\n')
    (hfirst : ∀ m, 0 ≤ m → m < k → s.char_buffer m ≠ '\n') :
    ∃ r, terminal_read fd buf nbytes s = some r ∧ r.ret = k + 1 ∧
      (∀ m, 0 ≤ m → m ≤ k → r.buf m = s.char_buffer m) ∧
      r.buf k = '\n' ∧
      (∀ m, 0 ≤ m → m ≤ k → r.state.char_buffer m = ' ') ∧
      (∀ m, k < m → r.state.char_buffer m = s.char_buffer m) := by
  have hloop := copy_loop_full_found BUFFER_SIZE.toNat 0 k s.char_buffer buf hk0
    (by simp [BUFFER_SIZE]; omega) hnl hfirst
  have hge : ¬ (nbytes < BUFFER_SIZE) := by unfold BUFFER_SIZE; omega
  refine ⟨_, terminal_read_eq fd buf nbytes s hflag _ (by rw [if_neg hge, hloop]), rfl, ?_, ?_,
    ?_, ?_⟩
  · intro m hm0 hm1
    have h3 : 0 ≤ m ∧ m ≤ k := ⟨hm0, hm1⟩
    simp [h3]
  · have h3 : 0 ≤ k ∧ k ≤ k := ⟨hk0, le_rfl⟩
    simp [h3, hnl]
  · intro m hm0 hm1
    have h3 : 0 ≤ m ∧ m ≤ k := ⟨hm0, hm1⟩
    simp [h3]
  · intro m hm
    have h3 : ¬ (0 ≤ m ∧ m ≤ k) := by omega
    simp [h3]

/-- C5 with `nbytes = 128`, in the state reached by typing `a`, `b` and Enter:
the first newline is at index 2 and the call returns 3. -/
theorem terminal_read_full_stops_at_newline_witness :
    ∃ r, terminal_read 0 (fun _ => 'x') 128 (handle_keys [0x1E, 0x30, 0x1C] init) = some r ∧
      r.ret = 2 + 1 ∧
      (∀ m, 0 ≤ m → m ≤ 2 → r.buf m = (handle_keys [0x1E, 0x30, 0x1C] init).char_buffer m) ∧
      r.buf 2 = '\n' ∧
      (∀ m, 0 ≤ m → m ≤ 2 → r.state.char_buffer m = ' ') ∧
      (∀ m, 2 < m → r.state.char_buffer m = (handle_keys [0x1E, 0x30, 0x1C] init).char_buffer m) :=
  terminal_read_full_stops_at_newline 0 (fun _ => 'x') 128 2
    (handle_keys [0x1E, 0x30, 0x1C] init) (by decide) (by decide) (by decide) (by decide)
    (by decide)
    (by
      intro m h0 h2
      interval_cases m <;> decide)

/-- C3, at a state the driver reaches: Enter, then `a`, leaves `enter_flag` set
and a line buffer with `a` in slot 0 and no newline in slots `0..127`.  There
`terminal_read` with `nbytes = 128` copies all 128 slots into `buf` and returns 0. -/
theorem terminal_read_returns_zero_after_copy :
    Reachable (handle_keys [0x1C, 0x1E] init) ∧
    ∃ r, terminal_read 0 (fun _ => 'x') 128 (handle_keys [0x1C, 0x1E] init) = some r ∧
      r.ret = 0 ∧ r.buf 0 = 'a' ∧
      (∀ m, 0 ≤ m → m < 128 → r.buf m = (handle_keys [0x1C, 0x1E] init).char_buffer m) ∧
      (∀ m, 0 ≤ m → m < 128 → r.state.char_buffer m = ' ') := by
  have hreach : Reachable (keyboard_handler 0x1E (keyboard_handler 0x1C init)) :=
    Reachable.key 0x1E (keyboard_handler 0x1C init) (Reachable.key 0x1C init Reachable.start)
  refine ⟨hreach, ?_⟩
  have hcb : (handle_keys [0x1C, 0x1E] init).char_buffer =
      Function.update (Function.update (fun _ => NUL) 0 '\n') 0 'a' := rfl
  have hflag : (handle_keys [0x1C, 0x1E] init).enter_flag ≠ 0 := by decide
  generalize handle_keys [0x1C, 0x1E] init = s at hcb hflag ⊢
  have hnone : ∀ m : Int, 0 ≤ m → m < 0 + (BUFFER_SIZE.toNat : Int) →
      s.char_buffer m ≠ '\n' := by
    intro m _ _
    rw [hcb]
    by_cases hm : m = 0
    · subst hm; simp
    · simp only [Function.update_noteq hm]; decide
  have hloop := copy_loop_full_none BUFFER_SIZE.toNat 0 _ (fun _ => 'x') hnone
  have hge : ¬ ((128 : Int) < BUFFER_SIZE) := by decide
  refine ⟨_, terminal_read_eq 0 (fun _ => 'x') 128 s hflag _ (by rw [if_neg hge, hloop]), rfl,
    ?_, ?_, ?_⟩
  · rw [hcb]; simp [BUFFER_SIZE]
  · intro m hm0 hm1
    have h3 : 0 ≤ m ∧ m < 0 + (BUFFER_SIZE.toNat : Int) := by simp [BUFFER_SIZE]; omega
    simp only [h3, and_self, if_true]
  · intro m hm0 hm1
    have h3 : 0 ≤ m ∧ m < 0 + (BUFFER_SIZE.toNat : Int) := by simp [BUFFER_SIZE]; omega
    simp only [h3, and_self, if_true]

/-! ## Typing a line and reading it back -/

/-- A scancode with a printable table entry is none of the modifier codes. -/
theorem printable_code_not_modifier (scan_code : Nat) (h : printable_code scan_code) :
    scan_code ∉ modifier_codes := by
  intro hm
  simp only [modifier_codes, List.mem_cons, List.mem_singleton, List.not_mem_nil,
    or_false] at hm
  rcases hm with hm | hm | hm | hm | hm | hm | hm <;> subst hm <;> revert h <;> decide

/-- The Enter scancode 0x1C in any state: `num_char` is reset, the newline is
echoed and stored at index `char_count`, capped at 127, and `enter_flag` is set. -/
theorem keyboard_handler_enter (s : DriverState) :
    keyboard_handler 0x1C s =
      { s with
        num_char := 0
        enter_flag := 1
        char_buffer :=
          Function.update s.char_buffer (if s.char_count ≥ 128 then 127 else s.char_count) '\n'
        trace := s.trace ++ [Event.cli, Event.putc '\n', Event.send_eoi 1, Event.sti] } := by
  have hm : (0x1C : Nat) ∉ modifier_codes := by decide
  have he : scan_to_ascii 0x1C 0 = '\n' := by decide
  simp [keyboard_handler, check_for_modifier_other _ _ hm, handle_key, he, get_char, putc, sti,
    send_eoi, cli, emit, KEYBOARD_IRQ_NUM, SCANCODES_SIZE, BUFFER_SIZE]

/-- A printable scancode, with no modifier active and room left in the line:
the base character is echoed, stored at index `char_count`, and both counters
go up by one. -/
theorem keyboard_handler_printable (scan_code : Nat) (s : DriverState)
    (hp : printable_code scan_code) (hl : s.l_shift_flag = 0) (hr : s.r_shift_flag = 0)
    (hc : s.ctrl_flag = 0) (hcaps : s.caps_flag = 0) (hnum : s.num_char < 127)
    (hcount : s.char_count < 127) :
    keyboard_handler scan_code s =
      { s with
        char_buffer := Function.update s.char_buffer s.char_count (scan_to_ascii scan_code 0)
        char_count := s.char_count + 1
        num_char := s.num_char + 1
        trace := s.trace ++ [Event.cli, Event.putc (scan_to_ascii scan_code 0),
          Event.send_eoi 1, Event.sti] } := by
  have hm := printable_code_not_modifier scan_code hp
  obtain ⟨h2, h58, _, hne, hnb⟩ := hp
  have hrange : ¬ (scan_code ≥ SCANCODES_SIZE ∨ scan_code ≤ 1) := by
    unfold SCANCODES_SIZE; omega
  have hcount2 : s.char_count < BUFFER_SIZE - 1 := by unfold BUFFER_SIZE; omega
  simp [keyboard_handler, check_for_modifier_other _ _ hm, hrange, handle_key, hne, hnb,
    echo_and_store, get_char, putc, sti, send_eoi, cli, emit, KEYBOARD_IRQ_NUM, BUFFER_MAX,
    hl, hr, hc, hcaps, hnum, hcount2]

/-- Typing printable scancodes, starting with no modifier active and the two
counters equal: the base characters are appended to the line buffer in order. -/
theorem handle_keys_printable (scan_codes : List Nat) :
    ∀ s : DriverState, s.l_shift_flag = 0 → s.r_shift_flag = 0 → s.ctrl_flag = 0 →
      s.caps_flag = 0 → s.num_char = s.char_count →
      s.char_count + scan_codes.length ≤ 127 →
      (∀ sc ∈ scan_codes, printable_code sc) →
      (handle_keys scan_codes s).char_count = s.char_count + scan_codes.length ∧
      (handle_keys scan_codes s).enter_flag = s.enter_flag ∧
      (∀ m, m < s.char_count → (handle_keys scan_codes s).char_buffer m = s.char_buffer m) ∧
      (∀ (i : Nat) (h : i < scan_codes.length),
        (handle_keys scan_codes s).char_buffer (s.char_count + i) =
          scan_to_ascii (scan_codes.get ⟨i, h⟩) 0) := by
  induction scan_codes with
  | nil =>
    intro s _ _ _ _ _ _ _
    simp [handle_keys]
  | cons sc rest ih =>
    intro s hl hr hc hcaps hnum hlen hp
    have hlen2 : s.char_count + (rest.length : Int) + 1 ≤ 127 := by
      simpa [add_assoc] using hlen
    have hstep := keyboard_handler_printable sc s (hp sc (List.mem_cons_self _ _)) hl hr hc hcaps
      (by omega) (by omega)
    have hfold : handle_keys (sc :: rest) s = handle_keys rest (keyboard_handler sc s) := rfl
    have e1 : (keyboard_handler sc s).char_count = s.char_count + 1 := by rw [hstep]
    have e2 : (keyboard_handler sc s).char_buffer =
        Function.update s.char_buffer s.char_count (scan_to_ascii sc 0) := by rw [hstep]
    have e3 : (keyboard_handler sc s).enter_flag = s.enter_flag := by rw [hstep]
    have e4 : (keyboard_handler sc s).num_char = s.num_char + 1 := by rw [hstep]
    have e5 : (keyboard_handler sc s).l_shift_flag = 0 := by rw [hstep]; exact hl
    have e6 : (keyboard_handler sc s).r_shift_flag = 0 := by rw [hstep]; exact hr
    have e7 : (keyboard_handler sc s).ctrl_flag = 0 := by rw [hstep]; exact hc
    have e8 : (keyboard_handler sc s).caps_flag = 0 := by rw [hstep]; exact hcaps
    rw [hfold]
    generalize keyboard_handler sc s = s1 at e1 e2 e3 e4 e5 e6 e7 e8 ⊢
    obtain ⟨h1, h2, h3, h4⟩ := ih s1 e5 e6 e7 e8 (by omega) (by omega)
      (fun x hx => hp x (List.mem_cons_of_mem _ hx))
    refine ⟨?_, by rw [h2, e3], ?_, ?_⟩
    · rw [h1, e1]; simp only [List.length_cons]; push_cast; omega
    · intro m hm
      rw [h3 m (by omega), e2, Function.update_noteq (by omega)]
    · intro i hi
      cases i with
      | zero =>
        have h5 := h3 s.char_count (by omega)
        rw [e2, Function.update_same] at h5
        simpa using h5
      | succ j =>
        have hj : j < rest.length := by simpa using hi
        have h5 := h4 j hj
        have h6 : s.char_count + ((j + 1 : Nat) : Int) = s1.char_count + (j : Int) := by
          push_cast; omega
        rw [h6, h5]
        rfl

/-- C1: from the initial state, after `k <= 127` scancodes with a printable
table entry (no modifier is active, so each is decoded to its base character)
and the Enter scancode 0x1C, one `terminal_read` with `nbytes >= k + 1` returns
`k + 1`, has put the `k` characters in order and then a newline into
`buf[0..k]`, has left the rest of `buf` alone, and leaves `char_count = 0` and
`enter_flag = 0`. -/
theorem round_trip (scan_codes : List Nat) (fd : Int) (buf : Int → Char) (nbytes : Int)
    (hk : scan_codes.length ≤ 127) (hp : ∀ sc ∈ scan_codes, printable_code sc)
    (hn : (scan_codes.length : Int) + 1 ≤ nbytes) :
    ∃ r, terminal_read fd buf nbytes (keyboard_handler 0x1C (handle_keys scan_codes init))
        = some r ∧
      r.ret = scan_codes.length + 1 ∧
      (List.range (scan_codes.length + 1)).map (fun i : Nat => r.buf i) =
        scan_codes.map (fun sc => scan_to_ascii sc 0) ++ ['\n'] ∧
      (∀ m : Int, m < 0 ∨ (scan_codes.length : Int) < m → r.buf m = buf m) ∧
      r.state.char_count = 0 ∧ r.state.enter_flag = 0 := by
  obtain ⟨h1, _, _, h4⟩ := handle_keys_printable scan_codes init rfl rfl rfl rfl rfl
    (by show (0 : Int) + _ ≤ 127; omega) hp
  have hcount : (handle_keys scan_codes init).char_count = scan_codes.length := by
    rw [h1]; show (0 : Int) + _ = _; omega
  have hchars : ∀ (i : Nat) (h : i < scan_codes.length),
      (handle_keys scan_codes init).char_buffer i = scan_to_ascii (scan_codes.get ⟨i, h⟩) 0 := by
    intro i h
    have := h4 i h
    rwa [show init.char_count + (i : Int) = i from by show (0 : Int) + _ = _; omega] at this
  have henter := keyboard_handler_enter (handle_keys scan_codes init)
  have hidx : (if (handle_keys scan_codes init).char_count ≥ 128 then (127 : Int)
      else (handle_keys scan_codes init).char_count) = scan_codes.length := by
    rw [hcount, if_neg (by omega)]
  rw [hidx] at henter
  have hflag : (keyboard_handler 0x1C (handle_keys scan_codes init)).enter_flag ≠ 0 := by
    rw [henter]; exact one_ne_zero
  have hcb : (keyboard_handler 0x1C (handle_keys scan_codes init)).char_buffer =
      Function.update (handle_keys scan_codes init).char_buffer scan_codes.length '\n' := by
    rw [henter]
  generalize keyboard_handler 0x1C (handle_keys scan_codes init) = s1 at hflag hcb ⊢
  have hnl : s1.char_buffer scan_codes.length = '\n' := by rw [hcb, Function.update_same]
  have hbody : ∀ (i : Nat) (h : i < scan_codes.length),
      s1.char_buffer i = scan_to_ascii (scan_codes.get ⟨i, h⟩) 0 := by
    intro i h
    rw [hcb, Function.update_noteq (by omega)]
    exact hchars i h
  have hfirst : ∀ m : Int, 0 ≤ m → m < scan_codes.length → s1.char_buffer m ≠ '\n' := by
    intro m hm0 hm1
    obtain ⟨i, rfl⟩ := Int.eq_ofNat_of_zero_le hm0
    have hi : i < scan_codes.length := by omega
    rw [hbody i hi]
    exact (hp _ (List.get_mem _ _ _)).2.2.2.1
  have hloop : (if nbytes < BUFFER_SIZE then
        copy_loop_small nbytes nbytes.toNat 0 s1.char_buffer buf
      else copy_loop_full BUFFER_SIZE.toNat 0 s1.char_buffer buf) =
      { char_buffer := fun m => if 0 ≤ m ∧ m ≤ (scan_codes.length : Int) then ' '
          else s1.char_buffer m,
        buf := fun m => if 0 ≤ m ∧ m ≤ (scan_codes.length : Int) then s1.char_buffer m
          else buf m,
        bytes_read := (scan_codes.length : Int) + 1 } := by
    split_ifs with hlt
    · exact copy_loop_small_found nbytes nbytes.toNat 0 scan_codes.length s1.char_buffer buf
        (by omega) (by omega) (by omega) hnl hfirst
    · exact copy_loop_full_found BUFFER_SIZE.toNat 0 scan_codes.length s1.char_buffer buf
        (by omega) (by simp [BUFFER_SIZE]; omega) hnl hfirst
  refine ⟨_, terminal_read_eq fd buf nbytes s1 hflag _ hloop, rfl, ?_, ?_, rfl, rfl⟩
  · apply List.ext_getElem
    · simp
    · intro i hi1 hi2
      have hi : i < scan_codes.length + 1 := by simpa using hi1
      have hin : (0 : Int) ≤ i ∧ (i : Int) ≤ scan_codes.length := by omega
      simp only [List.getElem_map, List.getElem_range, hin, and_self, if_true]
      by_cases hlast : i < scan_codes.length
      · rw [hbody i hlast, List.getElem_append_left (by simpa using hlast)]
        simp
      · have he : i = scan_codes.length := by omega
        subst he
        rw [hnl, List.getElem_append_right (by simp)]
        simp
  · intro m hm
    have hout : ¬ (0 ≤ m ∧ m ≤ (scan_codes.length : Int)) := by omega
    simp only [hout, if_false]

/-- C1 for the three keys `h`, `i`, `1` and a read of at most 10 bytes: the call
returns 4 and the caller's buffer starts with `h`, `i`, `1`, newline. -/
theorem round_trip_witness :
    ∃ r, terminal_read 0 (fun _ => 'x') 10
        (keyboard_handler 0x1C (handle_keys [0x23, 0x17, 0x02] init)) = some r ∧
      r.ret = ([0x23, 0x17, 0x02] : List Nat).length + 1 ∧
      (List.range (([0x23, 0x17, 0x02] : List Nat).length + 1)).map (fun i : Nat => r.buf i) =
        ([0x23, 0x17, 0x02] : List Nat).map (fun sc => scan_to_ascii sc 0) ++ ['\n'] ∧
      (∀ m : Int, m < 0 ∨ (([0x23, 0x17, 0x02] : List Nat).length : Int) < m →
        r.buf m = (fun _ => 'x') m) ∧
      r.state.char_count = 0 ∧ r.state.enter_flag = 0 :=
  round_trip [0x23, 0x17, 0x02] 0 (fun _ => 'x') 10 (by decide) (by decide) (by decide)

/-! ## Character resolution -/

/-- The table, read over the printable scancodes: the letter regions hold
exactly the letter keys, lower case in column 0 and upper case in column 1, and
no shifted entry is a newline or a backspace. -/
theorem table_facts : ∀ sc < 58, printable_code sc →
    (in_letter_region sc →
      (scan_to_ascii sc 0).isLower = true ∧ scan_to_ascii sc 1 = (scan_to_ascii sc 0).toUpper ∧
      (scan_to_ascii sc 1).isUpper = true ∧ (scan_to_ascii sc 0).isUpper = false) ∧
    (¬ in_letter_region sc →
      (scan_to_ascii sc 0).isAlpha = false ∧ (scan_to_ascii sc 1).isAlpha = false) ∧
    scan_to_ascii sc 1 ≠ '\n' ∧ scan_to_ascii sc 1 ≠ BCKSPACE := by
  intro sc hsc hp
  interval_cases sc <;> revert hp <;> decide

/-- C8: for a scancode of `2..57` with a printable table entry, in a state
with `num_char < 127` and not (ctrl held and the key is `l`), `keyboard_handler`
echoes and stores the shifted table variant exactly when (a shift is held) XOR
(caps-lock is active and the scancode is in a letter region), and the base
variant otherwise.  On a letter key the character is upper case iff exactly one
of shift and caps-lock is active; on any other key it is the shifted variant
iff a shift is held, whatever caps-lock is. -/
theorem character_resolution (scan_code : Nat) (s : DriverState)
    (hp : printable_code scan_code) (hnum : s.num_char < 127)
    (hctrl : ¬ (s.ctrl_flag > 0 ∧ scan_to_ascii scan_code 0 = 'l')) :
    keyboard_handler scan_code s =
      sti (send_eoi 1 (echo_and_store (spec_resolved_char scan_code s) (cli s))) ∧
    (keyboard_handler scan_code s).trace =
      s.trace ++ [Event.cli, Event.putc (spec_resolved_char scan_code s), Event.send_eoi 1,
        Event.sti] ∧
    (keyboard_handler scan_code s).num_char = s.num_char + 1 ∧
    (in_letter_region scan_code →
      (scan_to_ascii scan_code 0).isLower = true ∧
      scan_to_ascii scan_code 1 = (scan_to_ascii scan_code 0).toUpper ∧
      ((spec_resolved_char scan_code s).isUpper = true ↔
        Xor' (s.l_shift_flag ≠ 0 ∨ s.r_shift_flag ≠ 0) (s.caps_flag ≠ 0))) ∧
    (¬ in_letter_region scan_code →
      (scan_to_ascii scan_code 0).isAlpha = false ∧
      spec_resolved_char scan_code s =
        if s.l_shift_flag ≠ 0 ∨ s.r_shift_flag ≠ 0 then scan_to_ascii scan_code 1
        else scan_to_ascii scan_code 0) := by
  have hm := printable_code_not_modifier scan_code hp
  obtain ⟨hletter, hother, hs1, hs2⟩ := table_facts scan_code hp.2.1 hp
  obtain ⟨h2, h58, _, hne, hnb⟩ := hp
  have hrange : ¬ (scan_code ≥ SCANCODES_SIZE ∨ scan_code ≤ 1) := by
    unfold SCANCODES_SIZE; omega
  have hmain : keyboard_handler scan_code s =
      sti (send_eoi 1 (echo_and_store (spec_resolved_char scan_code s) (cli s))) := by
    have hk : keyboard_handler scan_code s =
        sti (send_eoi 1 (handle_key scan_code (cli s))) := by
      simp [keyboard_handler, check_for_modifier_other _ _ hm, hrange, KEYBOARD_IRQ_NUM]
    rw [hk]
    congr 2
    have hctrl2 : ¬ ((cli s).ctrl_flag > 0 ∧ scan_to_ascii scan_code 0 = 'l') := hctrl
    have hnum2 : (cli s).num_char < BUFFER_MAX := hnum
    unfold handle_key spec_resolved_char
    rw [if_neg hne, if_neg hctrl2, if_neg hnb]
    by_cases hshift : s.l_shift_flag ≠ 0 ∨ s.r_shift_flag ≠ 0 <;>
      by_cases hcaps : s.caps_flag ≠ 0 <;>
      by_cases hreg : in_letter_region scan_code <;>
      simp_all [Xor', cli]
  refine ⟨hmain, ?_, ?_, ?_, ?_⟩
  · rw [hmain]
    by_cases hx : Xor' (s.l_shift_flag ≠ 0 ∨ s.r_shift_flag ≠ 0)
        (s.caps_flag ≠ 0 ∧ in_letter_region scan_code)
    · simp [spec_resolved_char, hx, echo_and_store, get_char, hs1, hs2, putc, sti, send_eoi, cli,
        emit]
      split_ifs <;> simp
    · simp [spec_resolved_char, hx, echo_and_store, get_char, hne, hnb, putc, sti, send_eoi, cli,
        emit]
      split_ifs <;> simp
  · rw [hmain]
    simp [echo_and_store, get_char, putc, sti, send_eoi, cli, emit]
    split_ifs <;> simp
  · intro hreg
    obtain ⟨hl1, hl2, hl3, hl4⟩ := hletter hreg
    refine ⟨hl1, hl2, ?_⟩
    unfold spec_resolved_char
    by_cases hshift : s.l_shift_flag ≠ 0 ∨ s.r_shift_flag ≠ 0 <;>
      by_cases hcaps : s.caps_flag ≠ 0 <;>
      simp_all [Xor']
  · intro hreg
    refine ⟨(hother hreg).1, ?_⟩
    unfold spec_resolved_char
    by_cases hshift : s.l_shift_flag ≠ 0 ∨ s.r_shift_flag ≠ 0 <;> simp_all [Xor']

/-- C8 for the key `a` (0x1E) with the left shift held and caps-lock off. -/
theorem character_resolution_witness :
    printable_code 0x1E ∧
    spec_resolved_char 0x1E { init with l_shift_flag := 1 } = 'A' ∧
    (keyboard_handler 0x1E { init with l_shift_flag := 1 }).trace =
      ({ init with l_shift_flag := 1 } : DriverState).trace ++
        [Event.cli, Event.putc (spec_resolved_char 0x1E { init with l_shift_flag := 1 }),
          Event.send_eoi 1, Event.sti] :=
  ⟨by decide, by decide,
    (character_resolution 0x1E { init with l_shift_flag := 1 } (by decide) (by decide)
      (by decide)).2.1⟩

/-! ## Invariants of the reachable states -/

/-- Handling any list of scancodes leads from a reachable state to a reachable
state. -/
theorem reachable_handle_keys (scan_codes : List Nat) :
    ∀ s, Reachable s → Reachable (handle_keys scan_codes s) := by
  induction scan_codes with
  | nil => intro s h; exact h
  | cons sc rest ih => intro s h; exact ih _ (Reachable.key sc s h)

/-- A completed `terminal_read` resets `char_count` and `enter_flag` and leaves
`num_char` and the modifier flags alone. -/
theorem terminal_read_state (fd : Int) (buf : Int → Char) (nbytes : Int) (s : DriverState)
    (r : ReadResult) (h : terminal_read fd buf nbytes s = some r) :
    s.enter_flag ≠ 0 ∧ r.state.char_count = 0 ∧ r.state.enter_flag = 0 ∧
    r.state.num_char = s.num_char := by
  by_cases h0 : s.enter_flag = 0
  · simp [terminal_read, h0] at h
  · simp only [terminal_read, if_neg h0, Option.some.injEq] at h
    subst h
    exact ⟨h0, rfl, rfl, rfl⟩

/-- A scancode that is a modifier code or lies outside the table region leaves
the line buffer, `char_count` and `enter_flag` alone. -/
theorem keyboard_handler_no_key (scan_code : Nat) (s : DriverState)
    (h : scan_code ∈ modifier_codes ∨ scan_code ≤ 1 ∨ 58 ≤ scan_code) :
    (keyboard_handler scan_code s).char_buffer = s.char_buffer ∧
    (keyboard_handler scan_code s).char_count = s.char_count ∧
    (keyboard_handler scan_code s).enter_flag = s.enter_flag := by
  by_cases hm : scan_code ∈ modifier_codes
  · obtain ⟨f1, f2, f3, _, _⟩ := check_for_modifier_frame scan_code (cli s)
    have h1 : (check_for_modifier scan_code (cli s)).1 = 1 := check_for_modifier_fst _ _ hm
    have hk : keyboard_handler scan_code s =
        sti (send_eoi KEYBOARD_IRQ_NUM (check_for_modifier scan_code (cli s)).2) := by
      simp [keyboard_handler, h1]
    rw [hk]
    exact ⟨f1, f2, f3⟩
  · have hr : scan_code ≤ 1 ∨ 58 ≤ scan_code := by
      rcases h with h | h
      · exact absurd h hm
      · exact h
    rw [out_of_range_dropped scan_code s hm hr]
    exact ⟨rfl, rfl, rfl⟩

/-- A scancode of the table region that is no modifier code reaches the
key-decoding chain. -/
theorem keyboard_handler_key (scan_code : Nat) (s : DriverState)
    (hm : scan_code ∉ modifier_codes) (h2 : 2 ≤ scan_code) (h58 : scan_code < 58) :
    keyboard_handler scan_code s = sti (send_eoi 1 (handle_key scan_code (cli s))) := by
  have hrange : ¬ (scan_code ≥ SCANCODES_SIZE ∨ scan_code ≤ 1) := by
    unfold SCANCODES_SIZE; omega
  simp [keyboard_handler, check_for_modifier_other _ _ hm, hrange, KEYBOARD_IRQ_NUM]

/-- In the table, only the Enter key has a newline in its shifted column. -/
theorem shifted_not_newline : ∀ sc < 58, scan_to_ascii sc 0 ≠ '\n' →
    scan_to_ascii sc 1 ≠ '\n' := by
  intro sc hsc
  interval_cases sc <;> decide

/-- The function `get_char` sets `enter_flag` only for a newline. -/
theorem get_char_enter_flag (c : Char) (s : DriverState) (hc : c ≠ '\n') :
    (get_char c s).enter_flag = s.enter_flag := by
  simp only [get_char, if_neg hc, putc]
  split_ifs <;> rfl

/-- Echoing and storing a character other than a newline leaves `enter_flag`
alone. -/
theorem echo_and_store_enter_flag (c : Char) (s : DriverState) (hc : c ≠ '\n') :
    (echo_and_store c s).enter_flag = s.enter_flag := by
  show (get_char c (putc c s)).enter_flag = s.enter_flag
  rw [get_char_enter_flag c _ hc]
  rfl

/-- The key-decoding chain leaves `enter_flag` alone on any key but Enter. -/
theorem handle_key_enter_flag (scan_code : Nat) (s : DriverState)
    (h0 : scan_to_ascii scan_code 0 ≠ '\n') (h1 : scan_to_ascii scan_code 1 ≠ '\n') :
    (handle_key scan_code s).enter_flag = s.enter_flag := by
  unfold handle_key
  rw [if_neg h0]
  by_cases c2 : s.ctrl_flag > 0 ∧ scan_to_ascii scan_code 0 = 'l'
  · rw [if_pos c2]
    rfl
  rw [if_neg c2]
  by_cases c3 : scan_to_ascii scan_code 0 = BCKSPACE
  · rw [if_pos c3]
    by_cases c4 : s.num_char > 0
    · rw [if_pos c4]
      show (get_char _ (putc _ s)).enter_flag = s.enter_flag
      rw [get_char_enter_flag _ _ h0]
      rfl
    · rw [if_neg c4]
  rw [if_neg c3]
  split_ifs <;> first | rfl | exact echo_and_store_enter_flag _ _ h0 |
    exact echo_and_store_enter_flag _ _ h1

/-- C6, refuted: Enter followed by the key `a` leads to a state with
`enter_flag` set in which `char_buffer[min(char_count, 127)]` is not a newline;
slot 0, where the newline was stored, now holds `a`. -/
theorem terminator_overwritten_counterexample :
    Reachable (handle_keys [0x1C, 0x1E] init) ∧
    (handle_keys [0x1C, 0x1E] init).enter_flag ≠ 0 ∧
    (handle_keys [0x1C, 0x1E] init).char_buffer
      (min (handle_keys [0x1C, 0x1E] init).char_count 127) ≠ '\n' ∧
    (handle_keys [0x1C, 0x1E] init).char_buffer 0 = 'a' :=
  ⟨reachable_handle_keys _ _ Reachable.start, by decide, by decide, by decide⟩

/-- C6, as the code behaves: in every state reached without a line-editing key
being handled while `enter_flag` is set (modifier codes, ignored codes, Enter
and ctrl+`l` may still arrive then, and reads are taken only when `enter_flag`
is set), whenever `enter_flag` is set `char_buffer` holds a newline at index
`min(char_count, 127)`. -/
theorem terminator_present (s : DriverState) (h : ReachableNoTypeAhead s)
    (hflag : s.enter_flag ≠ 0) : s.char_buffer (min s.char_count 127) = '\n' := by
  induction h with
  | start => exact absurd rfl hflag
  | key sc s _ hquiet ih =>
    by_cases hno : sc ∈ modifier_codes ∨ sc ≤ 1 ∨ 58 ≤ sc
    · obtain ⟨f1, f2, f3⟩ := keyboard_handler_no_key sc s hno
      rw [f1, f2]
      exact ih (by rwa [f3] at hflag)
    · have hm : sc ∉ modifier_codes := fun hm => hno (Or.inl hm)
      have h2 : 2 ≤ sc := by omega
      have h58 : sc < 58 := by omega
      have hk := keyboard_handler_key sc s hm h2 h58
      by_cases c1 : scan_to_ascii sc 0 = '\n'
      · have hh : handle_key sc (cli s) =
            get_char (scan_to_ascii sc 0) (putc (scan_to_ascii sc 0)
              { cli s with num_char := 0 }) := by
          unfold handle_key
          rw [if_pos c1]
        rw [hk, hh, c1]
        simp only [get_char, putc, sti, send_eoi, cli, emit, if_true, BUFFER_SIZE]
        by_cases hc : s.char_count ≥ 128
        · rw [if_pos hc, min_eq_right (by omega)]
          simp
        · rw [if_neg hc, min_eq_left (by omega)]
          simp
      · by_cases c2 : s.ctrl_flag > 0 ∧ scan_to_ascii sc 0 = 'l'
        · have hh : handle_key sc (cli s) =
              outb PortByte.position_high 0x3D5 (outb (PortByte.lit 0x0E) 0x3D4
                (outb PortByte.position_low 0x3D5 (outb (PortByte.lit 0x0F) 0x3D4
                  (clear (cli s))))) := by
            have c2b : (cli s).ctrl_flag > 0 ∧ scan_to_ascii sc 0 = 'l' := c2
            unfold handle_key
            rw [if_neg c1, if_pos c2b]
          have e1 : (keyboard_handler sc s).char_buffer = s.char_buffer := by
            rw [hk, hh]
            simp only [sti, send_eoi, outb, clear, cli, emit_char_buffer]
          have e2 : (keyboard_handler sc s).char_count = s.char_count := by
            rw [hk, hh]
            simp only [sti, send_eoi, outb, clear, cli, emit_char_count]
          have e3 : (keyboard_handler sc s).enter_flag = s.enter_flag := by
            rw [hk, hh]
            simp only [sti, send_eoi, outb, clear, cli, emit_enter_flag]
          rw [e1, e2]
          exact ih (by rwa [e3] at hflag)
        · have hedit : edits_line sc s := ⟨hm, h2, h58, c1, c2⟩
          have hs0 : s.enter_flag = 0 := by
            by_contra hne
            exact hquiet hne hedit
          have hef : (keyboard_handler sc s).enter_flag = s.enter_flag := by
            rw [hk]
            show (handle_key sc (cli s)).enter_flag = s.enter_flag
            rw [handle_key_enter_flag sc (cli s) c1 (shifted_not_newline sc h58 c1)]
            rfl
          rw [hef] at hflag
          exact absurd hs0 hflag
  | read fd buf nbytes s r _ hr _ =>
    exact absurd (terminal_read_state fd buf nbytes s r hr).2.2.1 hflag

/-- C6 at the state reached by typing `a` and Enter, where the newline sits at
index 1. -/
theorem terminator_present_witness :
    ReachableNoTypeAhead (keyboard_handler 0x1C (keyboard_handler 0x1E init)) ∧
    (keyboard_handler 0x1C (keyboard_handler 0x1E init)).enter_flag ≠ 0 ∧
    (keyboard_handler 0x1C (keyboard_handler 0x1E init)).char_buffer
      (min (keyboard_handler 0x1C (keyboard_handler 0x1E init)).char_count 127) = '\n' :=
  have hr : ReachableNoTypeAhead (keyboard_handler 0x1C (keyboard_handler 0x1E init)) :=
    ReachableNoTypeAhead.key 0x1C (keyboard_handler 0x1E init)
      (ReachableNoTypeAhead.key 0x1E init ReachableNoTypeAhead.start
        (fun h => absurd rfl h))
      (fun h => absurd (by decide) h)
  ⟨hr, by decide, terminator_present _ hr (by decide)⟩

/-! ## Enter, Backspace and ctrl+`l` -/

/-- C11: in every state the Enter scancode 0x1C sets `num_char` to 0, sets
`enter_flag`, stores a newline at index `min(char_count, 127)` of
`char_buffer`, leaves `char_count`, the other slots and the four modifier
flags as they were, and echoes a newline between `cli` and `send_eoi(1)`,
`sti`. -/
theorem enter_commits_line (s : DriverState) :
    (keyboard_handler 0x1C s).num_char = 0 ∧
    (keyboard_handler 0x1C s).enter_flag = 1 ∧
    (keyboard_handler 0x1C s).char_buffer =
      Function.update s.char_buffer (min s.char_count 127) '\n' ∧
    (keyboard_handler 0x1C s).char_count = s.char_count ∧
    (keyboard_handler 0x1C s).l_shift_flag = s.l_shift_flag ∧
    (keyboard_handler 0x1C s).r_shift_flag = s.r_shift_flag ∧
    (keyboard_handler 0x1C s).ctrl_flag = s.ctrl_flag ∧
    (keyboard_handler 0x1C s).caps_flag = s.caps_flag ∧
    (keyboard_handler 0x1C s).trace =
      s.trace ++ [Event.cli, Event.putc '\n', Event.send_eoi 1, Event.sti] := by
  have hidx : (if s.char_count ≥ 128 then (127 : Int) else s.char_count) =
      min s.char_count 127 := by
    split_ifs with h
    · rw [min_eq_right (by omega)]
    · rw [min_eq_left (by omega)]
  rw [keyboard_handler_enter s, hidx]
  exact ⟨rfl, rfl, rfl, rfl, rfl, rfl, rfl, rfl, rfl⟩

/-- The table rows of the Enter and Backspace keys. -/
theorem enter_backspace_rows : ∀ sc < 58,
    (scan_to_ascii sc 0 = '\n' ↔ sc = 0x1C) ∧ (scan_to_ascii sc 0 = BCKSPACE ↔ sc = 0x0E) := by
  intro sc hsc
  interval_cases sc <;> decide

/-- The Backspace scancode 0x0E reaches the Backspace branch of the
key-decoding chain. -/
theorem keyboard_handler_backspace (s : DriverState) :
    keyboard_handler 0x0E s =
      sti (send_eoi 1
        (if s.num_char > 0 then
          { get_char BCKSPACE (putc BCKSPACE (cli s)) with
            num_char := (get_char BCKSPACE (putc BCKSPACE (cli s))).num_char - 1 }
        else cli s)) := by
  have hm : (0x0E : Nat) ∉ modifier_codes := by decide
  have hb : scan_to_ascii 0x0E 0 = BCKSPACE := by decide
  have hn : ¬ (BCKSPACE = '\n') := by decide
  have hl : ¬ (BCKSPACE = 'l') := by decide
  rw [keyboard_handler_key 0x0E s hm (by decide) (by decide)]
  congr 2
  unfold handle_key
  rw [hb, if_neg hn, if_neg (fun h => hl h.2), if_pos rfl]
  rfl

/-- C12, at the state reached by typing `a`, where `num_char = 1` and
`char_count = 1`: the Backspace scancode 0x0E brings both counters to 0 and
echoes the backspace character twice, once in `keyboard_handler` and once
more inside `get_char`. -/
theorem backspace_echoed_twice :
    (keyboard_handler 0x1E init).num_char = 1 ∧
    (keyboard_handler 0x1E init).char_count = 1 ∧
    (keyboard_handler 0x0E (keyboard_handler 0x1E init)).num_char = 0 ∧
    (keyboard_handler 0x0E (keyboard_handler 0x1E init)).char_count = 0 ∧
    (keyboard_handler 0x0E (keyboard_handler 0x1E init)).trace =
      (keyboard_handler 0x1E init).trace ++
        [Event.cli, Event.putc BCKSPACE, Event.putc BCKSPACE, Event.send_eoi 1, Event.sti] := by
  decide

/-- C13: in a state with `num_char = 0` the Backspace scancode 0x0E does
nothing but `cli`, `send_eoi(1)`, `sti`: no global changes and nothing is
echoed. -/
theorem backspace_at_line_start (s : DriverState) (h : s.num_char = 0) :
    keyboard_handler 0x0E s =
      { s with trace := s.trace ++ [Event.cli, Event.send_eoi 1, Event.sti] } ∧
    (keyboard_handler 0x0E s).num_char = 0 ∧
    (keyboard_handler 0x0E s).char_buffer = s.char_buffer ∧
    (keyboard_handler 0x0E s).char_count = s.char_count ∧
    (keyboard_handler 0x0E s).enter_flag = s.enter_flag := by
  have hn : ¬ (s.num_char > 0) := by omega
  have hk : keyboard_handler 0x0E s =
      { s with trace := s.trace ++ [Event.cli, Event.send_eoi 1, Event.sti] } := by
    rw [keyboard_handler_backspace s, if_neg hn]
    simp [sti, send_eoi, cli, emit]
  rw [hk]
  exact ⟨rfl, h, rfl, rfl, rfl⟩

/-- C13 at the initial state, where `num_char = 0`. -/
theorem backspace_at_line_start_witness :
    init.num_char = 0 ∧
    keyboard_handler 0x0E init =
      { init with trace := init.trace ++ [Event.cli, Event.send_eoi 1, Event.sti] } :=
  ⟨rfl, (backspace_at_line_start init rfl).1⟩

/-- C15: in a state with `ctrl_flag > 0`, whatever the shift and caps-lock
flags, the scancode 0x26 of `l` clears the screen and reprograms the cursor,
echoes no character and changes no global of the driver. -/
theorem ctrl_l_clears_screen (s : DriverState) (h : s.ctrl_flag > 0) :
    keyboard_handler 0x26 s =
      { s with trace := s.trace ++ [Event.cli, Event.clear,
          Event.outb (PortByte.lit 0x0F) 0x3D4, Event.outb PortByte.position_low 0x3D5,
          Event.outb (PortByte.lit 0x0E) 0x3D4, Event.outb PortByte.position_high 0x3D5,
          Event.send_eoi 1, Event.sti] } ∧
    (keyboard_handler 0x26 s).char_buffer = s.char_buffer ∧
    (keyboard_handler 0x26 s).char_count = s.char_count ∧
    (keyboard_handler 0x26 s).enter_flag = s.enter_flag ∧
    (keyboard_handler 0x26 s).num_char = s.num_char ∧
    (∀ c, Event.putc c ∉ (keyboard_handler 0x26 s).trace.drop s.trace.length) := by
  have hm : (0x26 : Nat) ∉ modifier_codes := by decide
  have hl : scan_to_ascii 0x26 0 = 'l' := by decide
  have hn : ¬ ('l' = '\n') := by decide
  have hc : (cli s).ctrl_flag > 0 ∧ 'l' = 'l' := ⟨h, rfl⟩
  have hk : keyboard_handler 0x26 s =
      { s with trace := s.trace ++ [Event.cli, Event.clear,
          Event.outb (PortByte.lit 0x0F) 0x3D4, Event.outb PortByte.position_low 0x3D5,
          Event.outb (PortByte.lit 0x0E) 0x3D4, Event.outb PortByte.position_high 0x3D5,
          Event.send_eoi 1, Event.sti] } := by
    rw [keyboard_handler_key 0x26 s hm (by decide) (by decide)]
    unfold handle_key
    rw [hl, if_neg hn, if_pos hc]
    simp [sti, send_eoi, cli, clear, outb, emit]
  rw [hk]
  refine ⟨rfl, rfl, rfl, rfl, rfl, ?_⟩
  intro c
  simp

/-- C15 with one ctrl key held in an otherwise initial state. -/
theorem ctrl_l_clears_screen_witness :
    ({ init with ctrl_flag := 1 } : DriverState).ctrl_flag > 0 ∧
    (keyboard_handler 0x26 { init with ctrl_flag := 1 }).char_count = 0 ∧
    (keyboard_handler 0x26 { init with ctrl_flag := 1 }).num_char = 0 :=
  ⟨by decide, (ctrl_l_clears_screen { init with ctrl_flag := 1 } (by decide)).2.2.1,
    (ctrl_l_clears_screen { init with ctrl_flag := 1 } (by decide)).2.2.2.2.1⟩

/-! ## A full line -/

/-- A scancode that is a modifier code or lies outside the table region leaves
`num_char` alone. -/
theorem keyboard_handler_no_key_num_char (scan_code : Nat) (s : DriverState)
    (h : scan_code ∈ modifier_codes ∨ scan_code ≤ 1 ∨ 58 ≤ scan_code) :
    (keyboard_handler scan_code s).num_char = s.num_char := by
  by_cases hm : scan_code ∈ modifier_codes
  · obtain ⟨_, _, _, f4, _⟩ := check_for_modifier_frame scan_code (cli s)
    have h1 : (check_for_modifier scan_code (cli s)).1 = 1 := check_for_modifier_fst _ _ hm
    have hk : keyboard_handler scan_code s =
        sti (send_eoi KEYBOARD_IRQ_NUM (check_for_modifier scan_code (cli s)).2) := by
      simp [keyboard_handler, h1]
    rw [hk]
    exact f4
  · have hr : scan_code ≤ 1 ∨ 58 ≤ scan_code := by
      rcases h with h | h
      · exact absurd h hm
      · exact h
    rw [out_of_range_dropped scan_code s hm hr]

/-- The ctrl+`l` branch of the key-decoding chain. -/
theorem handle_key_ctrl_l (scan_code : Nat) (s : DriverState)
    (h1 : scan_to_ascii scan_code 0 ≠ '\n')
    (h2 : s.ctrl_flag > 0 ∧ scan_to_ascii scan_code 0 = 'l') :
    handle_key scan_code s =
      { s with trace := s.trace ++ [Event.clear,
          Event.outb (PortByte.lit 0x0F) 0x3D4, Event.outb PortByte.position_low 0x3D5,
          Event.outb (PortByte.lit 0x0E) 0x3D4, Event.outb PortByte.position_high 0x3D5] } := by
  unfold handle_key
  rw [if_neg h1, if_pos h2]
  simp [clear, outb, emit]

/-- A key that would be echoed and stored is dropped by the key-decoding chain
once `num_char` has reached 127. -/
theorem handle_key_full (scan_code : Nat) (s : DriverState)
    (h1 : scan_to_ascii scan_code 0 ≠ '\n')
    (h2 : ¬ (s.ctrl_flag > 0 ∧ scan_to_ascii scan_code 0 = 'l'))
    (h3 : scan_to_ascii scan_code 0 ≠ BCKSPACE) (hnum : s.num_char ≥ 127) :
    handle_key scan_code s = s := by
  have hn : ¬ (s.num_char < BUFFER_MAX) := by unfold BUFFER_MAX; omega
  unfold handle_key
  rw [if_neg h1, if_neg h2, if_neg h3, if_neg (fun h => hn h.2), if_neg (fun h => hn h.2),
    if_neg hn]

/-- C14: in a state with `num_char >= 127`, a scancode that would otherwise be
echoed and stored (no modifier code, inside the table region, not Enter, not
ctrl+`l`, not Backspace; whatever the shift and caps-lock flags) is dropped:
only `cli`, `send_eoi(1)`, `sti` happen and no global changes.  More generally
every scancode other than Enter (0x1C) and Backspace (0x0E) then leaves
`char_buffer`, `char_count`, `num_char` and `enter_flag` as they were. -/
theorem full_line_drops_characters (scan_code : Nat) (s : DriverState)
    (hnum : s.num_char ≥ 127) :
    (edits_line scan_code s → scan_to_ascii scan_code 0 ≠ BCKSPACE →
      keyboard_handler scan_code s =
        { s with trace := s.trace ++ [Event.cli, Event.send_eoi 1, Event.sti] }) ∧
    (scan_code ≠ 0x1C → scan_code ≠ 0x0E →
      (keyboard_handler scan_code s).char_buffer = s.char_buffer ∧
      (keyboard_handler scan_code s).char_count = s.char_count ∧
      (keyboard_handler scan_code s).num_char = s.num_char ∧
      (keyboard_handler scan_code s).enter_flag = s.enter_flag) := by
  have hdrop : edits_line scan_code s → scan_to_ascii scan_code 0 ≠ BCKSPACE →
      keyboard_handler scan_code s =
        { s with trace := s.trace ++ [Event.cli, Event.send_eoi 1, Event.sti] } := by
    intro he hb
    obtain ⟨hm, h2, h58, hne, hctrl⟩ := he
    rw [keyboard_handler_key scan_code s hm h2 h58,
      handle_key_full scan_code (cli s) hne hctrl hb hnum]
    simp [sti, send_eoi, cli, emit]
  refine ⟨hdrop, ?_⟩
  intro hE hB
  by_cases hno : scan_code ∈ modifier_codes ∨ scan_code ≤ 1 ∨ 58 ≤ scan_code
  · obtain ⟨f1, f2, f3⟩ := keyboard_handler_no_key scan_code s hno
    exact ⟨f1, f2, keyboard_handler_no_key_num_char scan_code s hno, f3⟩
  · have hm : scan_code ∉ modifier_codes := fun hm => hno (Or.inl hm)
    have h2 : 2 ≤ scan_code := by omega
    have h58 : scan_code < 58 := by omega
    obtain ⟨r1, r2⟩ := enter_backspace_rows scan_code h58
    have hne : scan_to_ascii scan_code 0 ≠ '\n' := fun h => hE (r1.mp h)
    have hnb : scan_to_ascii scan_code 0 ≠ BCKSPACE := fun h => hB (r2.mp h)
    by_cases hctrl : s.ctrl_flag > 0 ∧ scan_to_ascii scan_code 0 = 'l'
    · rw [keyboard_handler_key scan_code s hm h2 h58,
        handle_key_ctrl_l scan_code (cli s) hne hctrl]
      exact ⟨rfl, rfl, rfl, rfl⟩
    · rw [hdrop ⟨hm, h2, h58, hne, hctrl⟩ hnb]
      exact ⟨rfl, rfl, rfl, rfl⟩

/-- C14 for the key `a` (0x1E) in a state with 127 characters on the line. -/
theorem full_line_drops_characters_witness :
    ({ init with num_char := 127, char_count := 127 } : DriverState).num_char ≥ 127 ∧
    edits_line 0x1E { init with num_char := 127, char_count := 127 } ∧
    scan_to_ascii 0x1E 0 ≠ BCKSPACE ∧
    keyboard_handler 0x1E { init with num_char := 127, char_count := 127 } =
      { ({ init with num_char := 127, char_count := 127 } : DriverState) with
        trace := ({ init with num_char := 127, char_count := 127 } : DriverState).trace ++
          [Event.cli, Event.send_eoi 1, Event.sti] } :=
  have he : edits_line 0x1E { init with num_char := 127, char_count := 127 } :=
    ⟨by decide, by decide, by decide, by decide, fun h => absurd h.1 (by decide)⟩
  ⟨by decide, he, by decide,
    (full_line_drops_characters 0x1E { init with num_char := 127, char_count := 127 }
      (by decide)).1 he (by decide)⟩

/-! ## `terminal_write` -/

/-- The loop of `terminal_write` echoes the bytes `buf[i..i+remaining-1]` that
are not NUL, in order, and changes nothing else. -/
theorem write_loop_trace (buf : Int → Char) (remaining : Nat) :
    ∀ (i : Int) (s : DriverState),
      write_loop buf remaining i s =
        { s with trace := s.trace ++
            (((List.range remaining).map (fun k : Nat => buf (i + k))).filter
              (fun c => decide (c ≠ NUL))).map Event.putc } := by
  induction remaining with
  | zero => intro i s; simp [write_loop]
  | succ n ih =>
    intro i s
    have hshift : (List.range (n + 1)).map (fun k : Nat => buf (i + k)) =
        buf i :: (List.range n).map (fun k : Nat => buf (i + 1 + k)) := by
      rw [List.range_succ_eq_map, List.map_cons, List.map_map]
      congr 1
      · simp
      · apply List.map_congr_left
        intro k _
        simp only [Function.comp_apply, Nat.succ_eq_add_one]
        congr 1
        push_cast
        omega
    rw [hshift]
    unfold write_loop
    simp only []
    rw [ih]
    by_cases hc : buf i ≠ NUL
    · simp [hc, putc, emit]
    · simp [hc]

/-- C16: `terminal_write(fd, buf, n)` returns `n` and echoes with `putc`
exactly the bytes of `buf[0..n-1]` that are not NUL, in their order, changing
no global of the driver. -/
theorem terminal_write_skips_nul (fd : Int) (buf : Int → Char) (n : Int) (s : DriverState) :
    (terminal_write fd buf n s).2 = n ∧
    (terminal_write fd buf n s).1 =
      { s with trace := s.trace ++
          (((List.range n.toNat).map (fun k : Nat => buf k)).filter
            (fun c => decide (c ≠ NUL))).map Event.putc } := by
  refine ⟨rfl, ?_⟩
  show write_loop buf n.toNat 0 s = _
  rw [write_loop_trace]
  simp

/-! ## End of interrupt -/

/-- No call adds no display call. -/
theorem adds_display_calls_refl (s : DriverState) : adds_display_calls s s :=
  ⟨[], by simp, by simp⟩

/-- Display calls after display calls are display calls. -/
theorem adds_display_calls_trans (s1 s2 s3 : DriverState) (h12 : adds_display_calls s1 s2)
    (h23 : adds_display_calls s2 s3) : adds_display_calls s1 s3 := by
  obtain ⟨b1, hb1, e1⟩ := h12
  obtain ⟨b2, hb2, e2⟩ := h23
  refine ⟨b1 ++ b2, ?_, by rw [e2, e1, List.append_assoc]⟩
  intro e he
  rcases List.mem_append.mp he with h | h
  · exact hb1 e h
  · exact hb2 e h

/-- A single `putc`, `clear` or `outb` adds a display call. -/
theorem adds_display_calls_emit (e : Event) (s : DriverState) (he : is_display_call e = true) :
    adds_display_calls s (emit e s) :=
  ⟨[e], by simpa using he, rfl⟩

/-- The function `get_char` adds display calls only. -/
theorem get_char_adds_display_calls (c : Char) (s : DriverState) :
    adds_display_calls s (get_char c s) := by
  unfold get_char
  split_ifs <;> first | exact ⟨[Event.putc c], by simp [is_display_call], rfl⟩ |
    exact ⟨[], by simp, (List.append_nil _).symm⟩

/-- The statements `putc(c); get_char(c);` add display calls only. -/
theorem putc_get_char_adds_display_calls (c : Char) (s : DriverState) :
    adds_display_calls s (get_char c (putc c s)) :=
  adds_display_calls_trans _ _ _ (adds_display_calls_emit (Event.putc c) s rfl)
    (get_char_adds_display_calls c _)

/-- The statements `putc(c); get_char(c); ++num_char;` add display calls only. -/
theorem echo_and_store_adds_display_calls (c : Char) (s : DriverState) :
    adds_display_calls s (echo_and_store c s) :=
  putc_get_char_adds_display_calls c s

/-- The key-decoding chain adds display calls only. -/
theorem handle_key_adds_display_calls (scan_code : Nat) (s : DriverState) :
    adds_display_calls s (handle_key scan_code s) := by
  unfold handle_key
  by_cases c1 : scan_to_ascii scan_code 0 = '\n'
  · rw [if_pos c1]
    exact putc_get_char_adds_display_calls _ { s with num_char := 0 }
  rw [if_neg c1]
  by_cases c2 : s.ctrl_flag > 0 ∧ scan_to_ascii scan_code 0 = 'l'
  · rw [if_pos c2]
    exact ⟨[Event.clear, Event.outb (PortByte.lit 0x0F) 0x3D4,
      Event.outb PortByte.position_low 0x3D5, Event.outb (PortByte.lit 0x0E) 0x3D4,
      Event.outb PortByte.position_high 0x3D5], by simp [is_display_call],
      by simp [clear, outb, emit]⟩
  rw [if_neg c2]
  by_cases c3 : scan_to_ascii scan_code 0 = BCKSPACE
  · rw [if_pos c3]
    by_cases c4 : s.num_char > 0
    · rw [if_pos c4]
      exact putc_get_char_adds_display_calls _ s
    · rw [if_neg c4]
      exact adds_display_calls_refl s
  rw [if_neg c3]
  split_ifs <;> first | exact echo_and_store_adds_display_calls _ s |
    exact adds_display_calls_refl s

/-! ## Program order -/

/-- Running two lists of statements one after the other. -/
theorem run_steps_append (a b : List Step) (s : DriverState) :
    run_steps (a ++ b) s = run_steps b (run_steps a s) :=
  List.foldl_append _ _ _ _

/-- The statements listed for `check_for_modifier` have its effect. -/
theorem check_for_modifier_steps_run (scan_code : Nat) (s : DriverState) :
    run_steps (check_for_modifier_steps scan_code s) s = (check_for_modifier scan_code s).2 := by
  unfold check_for_modifier_steps check_for_modifier
  split_ifs <;> rfl

/-- The statements listed for `get_char` have its effect. -/
theorem get_char_steps_run (c : Char) (s : DriverState) :
    run_steps (get_char_steps c s) s = get_char c s := by
  unfold get_char_steps get_char
  split_ifs <;> rfl

/-- The statements listed for `putc(c); get_char(c); ++num_char;` have their
effect. -/
theorem echo_and_store_steps_run (c : Char) (s : DriverState) :
    run_steps (echo_and_store_steps c s) s = echo_and_store c s := by
  unfold echo_and_store_steps
  rw [run_steps_append, run_steps_append]
  have h1 : run_steps [Step.call (Event.putc c)] s = putc c s := rfl
  rw [h1, get_char_steps_run]
  rfl

/-- The statements listed for the key-decoding chain have its effect. -/
theorem handle_key_steps_run (scan_code : Nat) (s : DriverState) :
    run_steps (handle_key_steps scan_code s) s = handle_key scan_code s := by
  unfold handle_key_steps handle_key
  by_cases c1 : scan_to_ascii scan_code 0 = '\n'
  · rw [if_pos c1, if_pos c1]
    simp only []
    rw [run_steps_append]
    have h1 : ∀ c : Char, run_steps [Step.set_num_char 0, Step.call (Event.putc c)] s =
        putc c { s with num_char := 0 } := fun _ => rfl
    rw [h1, get_char_steps_run]
  rw [if_neg c1, if_neg c1]
  by_cases c2 : s.ctrl_flag > 0 ∧ scan_to_ascii scan_code 0 = 'l'
  · rw [if_pos c2, if_pos c2]
    rfl
  rw [if_neg c2, if_neg c2]
  by_cases c3 : scan_to_ascii scan_code 0 = BCKSPACE
  · rw [if_pos c3, if_pos c3]
    by_cases c4 : s.num_char > 0
    · rw [if_pos c4, if_pos c4, run_steps_append, run_steps_append]
      have h1 : ∀ c : Char, run_steps [Step.call (Event.putc c)] s = putc c s := fun _ => rfl
      rw [h1, get_char_steps_run]
      rfl
    · rw [if_neg c4, if_neg c4]
      rfl
  rw [if_neg c3, if_neg c3]
  split_ifs <;> first | exact echo_and_store_steps_run _ s | rfl

/-- The statements listed for `keyboard_handler` have its effect. -/
theorem keyboard_handler_steps_run (scan_code : Nat) (s : DriverState) :
    run_steps (keyboard_handler_steps scan_code s) s = keyboard_handler scan_code s := by
  unfold keyboard_handler_steps keyboard_handler
  simp only []
  have hcli : run_steps [Step.call Event.cli] s = cli s := rfl
  have hend : ∀ x : DriverState,
      run_steps [Step.call (Event.send_eoi KEYBOARD_IRQ_NUM), Step.call Event.sti] x =
        sti (send_eoi KEYBOARD_IRQ_NUM x) := fun _ => rfl
  split_ifs
  · rw [run_steps_append, run_steps_append, hcli, check_for_modifier_steps_run, hend]
  · rw [run_steps_append, run_steps_append, hcli, check_for_modifier_steps_run, hend]
  · rw [run_steps_append, run_steps_append, run_steps_append, hcli,
      check_for_modifier_steps_run, handle_key_steps_run, hend]

/-- The function `check_for_modifier` executes assignments only. -/
theorem check_for_modifier_steps_body (scan_code : Nat) (s : DriverState) :
    ∀ st ∈ check_for_modifier_steps scan_code s, is_body_step st = true := by
  unfold check_for_modifier_steps
  split_ifs <;> simp [is_body_step]

/-- The function `get_char` executes assignments and display calls only. -/
theorem get_char_steps_body (c : Char) (s : DriverState) :
    ∀ st ∈ get_char_steps c s, is_body_step st = true := by
  unfold get_char_steps
  split_ifs <;> simp [is_body_step, is_display_call]

/-- The statements `putc(c); get_char(c); ++num_char;` are assignments and
display calls only. -/
theorem echo_and_store_steps_body (c : Char) (s : DriverState) :
    ∀ st ∈ echo_and_store_steps c s, is_body_step st = true := by
  intro st hst
  unfold echo_and_store_steps at hst
  rcases List.mem_append.mp hst with h | h
  · rcases List.mem_append.mp h with h | h
    · rw [List.mem_singleton.mp h]; rfl
    · exact get_char_steps_body c _ st h
  · rw [List.mem_singleton.mp h]; rfl

/-- The key-decoding chain executes assignments and display calls only. -/
theorem handle_key_steps_body (scan_code : Nat) (s : DriverState) :
    ∀ st ∈ handle_key_steps scan_code s, is_body_step st = true := by
  intro st hst
  unfold handle_key_steps at hst
  by_cases c1 : scan_to_ascii scan_code 0 = '\n'
  · rw [if_pos c1] at hst
    rcases List.mem_append.mp hst with h | h
    · simp only [List.mem_cons, List.mem_singleton, List.not_mem_nil, or_false] at h
      rcases h with h | h <;> rw [h] <;> rfl
    · exact get_char_steps_body _ _ st h
  rw [if_neg c1] at hst
  by_cases c2 : s.ctrl_flag > 0 ∧ scan_to_ascii scan_code 0 = 'l'
  · rw [if_pos c2] at hst
    simp only [List.mem_cons, List.mem_singleton, List.not_mem_nil, or_false] at hst
    rcases hst with h | h | h | h | h <;> rw [h] <;> rfl
  rw [if_neg c2] at hst
  by_cases c3 : scan_to_ascii scan_code 0 = BCKSPACE
  · rw [if_pos c3] at hst
    by_cases c4 : s.num_char > 0
    · rw [if_pos c4] at hst
      rcases List.mem_append.mp hst with h | h
      · rcases List.mem_append.mp h with h | h
        · rw [List.mem_singleton.mp h]; rfl
        · exact get_char_steps_body _ _ st h
      · rw [List.mem_singleton.mp h]; rfl
    · rw [if_neg c4] at hst
      exact absurd hst (List.not_mem_nil st)
  rw [if_neg c3] at hst
  split_ifs at hst <;> first | exact echo_and_store_steps_body _ s st hst |
    exact absurd hst (List.not_mem_nil st)

/-- The calls made by one `keyboard_handler` invocation: `cli`, then display
calls only, then `send_eoi(1)`, then `sti`. -/
theorem keyboard_handler_calls (scan_code : Nat) (s : DriverState) :
    ∃ (body : List Event) (s1 : DriverState),
      (∀ e ∈ body, is_display_call e = true) ∧
      s1.trace = s.trace ++ Event.cli :: body ∧
      keyboard_handler scan_code s = sti (send_eoi 1 s1) ∧
      (keyboard_handler scan_code s).trace =
        s.trace ++ (Event.cli :: body ++ [Event.send_eoi 1, Event.sti]) ∧
      (∀ irq, (Event.cli :: body ++ [Event.send_eoi 1, Event.sti]).count (Event.send_eoi irq) =
        if irq = 1 then 1 else 0) ∧
      (Event.cli :: body ++ [Event.send_eoi 1, Event.sti]).count Event.cli = 1 ∧
      (Event.cli :: body ++ [Event.send_eoi 1, Event.sti]).count Event.sti = 1 := by
  have hmid : ∃ s1, adds_display_calls (cli s) s1 ∧
      keyboard_handler scan_code s = sti (send_eoi 1 s1) := by
    unfold keyboard_handler
    simp only [KEYBOARD_IRQ_NUM]
    split_ifs
    · exact ⟨_, ⟨[], by simp, by
        rw [(check_for_modifier_frame scan_code (cli s)).2.2.2.2]; simp⟩, rfl⟩
    · exact ⟨_, ⟨[], by simp, by
        rw [(check_for_modifier_frame scan_code (cli s)).2.2.2.2]; simp⟩, rfl⟩
    · refine ⟨_, ?_, rfl⟩
      obtain ⟨body, hb, he⟩ := handle_key_adds_display_calls scan_code
        (check_for_modifier scan_code (cli s)).2
      exact ⟨body, hb, by rw [he, (check_for_modifier_frame scan_code (cli s)).2.2.2.2]⟩
  obtain ⟨s1, ⟨body, hb, he⟩, hk⟩ := hmid
  have htr : s1.trace = s.trace ++ Event.cli :: body := by
    rw [he]; simp [cli]
  have hcount : ∀ e : Event, is_display_call e = false → body.count e = 0 := by
    intro e hne
    apply List.count_eq_zero.mpr
    intro hmem
    rw [hb e hmem] at hne
    exact absurd hne (by decide)
  refine ⟨body, s1, hb, htr, hk, ?_, ?_, ?_, ?_⟩
  · rw [hk]
    simp [sti, send_eoi, htr]
  · intro irq
    by_cases hirq : irq = 1
    · subst hirq
      simp [List.count_cons, List.count_append, hcount (Event.send_eoi 1) rfl]
    · have hne : ¬ (1 = irq) := fun h => hirq h.symm
      simp [List.count_cons, List.count_append, hcount (Event.send_eoi irq) rfl, hirq, hne]
  · simp [List.count_cons, List.count_append, hcount Event.cli rfl]
  · simp [List.count_cons, List.count_append, hcount Event.sti rfl]

/-- C17: for every scancode and every state, one `keyboard_handler`
invocation makes the calls `cli`, then display calls only (`putc`, `clear`,
`outb`), then `send_eoi(1)`, then `sti`: exactly one end-of-interrupt, for
IRQ 1, on every path.  In program order its statements are `cli`, then
assignments to the globals and display calls, then `send_eoi(1)`, then `sti`, so
no global is assigned after the end-of-interrupt, and running these statements
in this order gives the handler's result. -/
theorem one_eoi_per_interrupt (scan_code : Nat) (s : DriverState) :
    (∃ (body : List Event) (s1 : DriverState),
      (∀ e ∈ body, is_display_call e = true) ∧
      s1.trace = s.trace ++ Event.cli :: body ∧
      keyboard_handler scan_code s = sti (send_eoi 1 s1) ∧
      (keyboard_handler scan_code s).trace =
        s.trace ++ (Event.cli :: body ++ [Event.send_eoi 1, Event.sti]) ∧
      (∀ irq, (Event.cli :: body ++ [Event.send_eoi 1, Event.sti]).count (Event.send_eoi irq) =
        if irq = 1 then 1 else 0) ∧
      (Event.cli :: body ++ [Event.send_eoi 1, Event.sti]).count Event.cli = 1 ∧
      (Event.cli :: body ++ [Event.send_eoi 1, Event.sti]).count Event.sti = 1) ∧
    (∃ mid : List Step,
      keyboard_handler_steps scan_code s =
        Step.call Event.cli :: (mid ++ [Step.call (Event.send_eoi 1), Step.call Event.sti]) ∧
      (∀ st ∈ mid, is_body_step st = true) ∧
      run_steps (keyboard_handler_steps scan_code s) s = keyboard_handler scan_code s) := by
  refine ⟨keyboard_handler_calls scan_code s, ?_⟩
  have hshape : ∃ mid : List Step,
      keyboard_handler_steps scan_code s =
        Step.call Event.cli :: (mid ++ [Step.call (Event.send_eoi 1), Step.call Event.sti]) ∧
      (∀ st ∈ mid, is_body_step st = true) := by
    unfold keyboard_handler_steps
    simp only [KEYBOARD_IRQ_NUM]
    split_ifs
    · exact ⟨check_for_modifier_steps scan_code (cli s), by simp,
        check_for_modifier_steps_body scan_code (cli s)⟩
    · exact ⟨check_for_modifier_steps scan_code (cli s), by simp,
        check_for_modifier_steps_body scan_code (cli s)⟩
    · refine ⟨check_for_modifier_steps scan_code (cli s) ++
        handle_key_steps scan_code (check_for_modifier scan_code (cli s)).2, by simp, ?_⟩
      intro st hst
      rcases List.mem_append.mp hst with h | h
      · exact check_for_modifier_steps_body scan_code (cli s) st h
      · exact handle_key_steps_body scan_code _ st h
  obtain ⟨mid, h1, h2⟩ := hshape
  exact ⟨mid, h1, h2, keyboard_handler_steps_run scan_code s⟩

/-! ## The two line counters -/

/-- In the table, a key that is neither Enter nor Backspace has neither a
newline nor a backspace in its shifted column. -/
theorem shifted_not_special : ∀ sc < 58, scan_to_ascii sc 0 ≠ '\n' →
    scan_to_ascii sc 0 ≠ BCKSPACE →
    scan_to_ascii sc 1 ≠ '\n' ∧ scan_to_ascii sc 1 ≠ BCKSPACE := by
  intro sc hsc
  interval_cases sc <;> decide

/-- The character chosen by the XOR rule is one of the two table entries. -/
theorem spec_resolved_char_cases (scan_code : Nat) (s : DriverState) :
    spec_resolved_char scan_code s = scan_to_ascii scan_code 0 ∨
    spec_resolved_char scan_code s = scan_to_ascii scan_code 1 := by
  unfold spec_resolved_char
  split_ifs
  · exact Or.inr rfl
  · exact Or.inl rfl

/-- A key that is neither Enter, nor ctrl+`l`, nor Backspace, with
`num_char < 127`: the key-decoding chain echoes and stores the character
chosen by the XOR rule. -/
theorem handle_key_emit (scan_code : Nat) (s : DriverState)
    (h1 : scan_to_ascii scan_code 0 ≠ '\n')
    (h2 : ¬ (s.ctrl_flag > 0 ∧ scan_to_ascii scan_code 0 = 'l'))
    (h3 : scan_to_ascii scan_code 0 ≠ BCKSPACE) (hnum : s.num_char < 127) :
    handle_key scan_code s = echo_and_store (spec_resolved_char scan_code s) s := by
  have hnum2 : s.num_char < BUFFER_MAX := hnum
  unfold handle_key spec_resolved_char
  rw [if_neg h1, if_neg h2, if_neg h3]
  by_cases hshift : s.l_shift_flag ≠ 0 ∨ s.r_shift_flag ≠ 0 <;>
    by_cases hcaps : s.caps_flag ≠ 0 <;>
    by_cases hreg : in_letter_region scan_code <;>
    simp_all [Xor']

/-- Echoing and storing a character that is neither a newline nor a backspace,
with `char_count < 127`: the character goes to slot `char_count` and both
counters go up by one. -/
theorem echo_and_store_plain (c : Char) (s : DriverState) (h1 : c ≠ '\n') (h2 : c ≠ BCKSPACE)
    (hcount : s.char_count < 127) :
    echo_and_store c s =
      { s with
        char_buffer := Function.update s.char_buffer s.char_count c
        char_count := s.char_count + 1
        num_char := s.num_char + 1
        trace := s.trace ++ [Event.putc c] } := by
  have hcount2 : s.char_count < BUFFER_SIZE - 1 := by unfold BUFFER_SIZE; omega
  simp [echo_and_store, get_char, putc, emit, h1, h2, hcount2]

/-- A keyboard interrupt keeps the agreement of the two counters, provided it
is no line-editing key handled while `enter_flag` is set. -/
theorem keyboard_handler_counters_agree (sc : Nat) (s : DriverState) (h : counters_agree s)
    (hquiet : s.enter_flag ≠ 0 → ¬ edits_line sc s) :
    counters_agree (keyboard_handler sc s) := by
  obtain ⟨a1, a2, a3, a4⟩ := h
  by_cases hno : sc ∈ modifier_codes ∨ sc ≤ 1 ∨ 58 ≤ sc
  · obtain ⟨_, f2, f3⟩ := keyboard_handler_no_key sc s hno
    have f4 := keyboard_handler_no_key_num_char sc s hno
    unfold counters_agree
    rw [f2, f3, f4]
    exact ⟨a1, a2, a3, a4⟩
  have hm : sc ∉ modifier_codes := fun hm => hno (Or.inl hm)
  have h2 : 2 ≤ sc := by omega
  have h58 : sc < 58 := by omega
  obtain ⟨r1, r2⟩ := enter_backspace_rows sc h58
  by_cases c1 : scan_to_ascii sc 0 = '\n'
  · have hsc : sc = 0x1C := r1.mp c1
    subst hsc
    rw [keyboard_handler_enter s]
    exact ⟨fun h => absurd h one_ne_zero, fun _ => rfl, le_rfl, by norm_num⟩
  by_cases c2 : s.ctrl_flag > 0 ∧ scan_to_ascii sc 0 = 'l'
  · rw [keyboard_handler_key sc s hm h2 h58, handle_key_ctrl_l sc (cli s) c1 c2]
    exact ⟨a1, a2, a3, a4⟩
  have hs0 : s.enter_flag = 0 := by
    by_contra hne
    exact hquiet hne ⟨hm, h2, h58, c1, c2⟩
  have heq := a1 hs0
  by_cases c3 : scan_to_ascii sc 0 = BCKSPACE
  · have hsc : sc = 0x0E := r2.mp c3
    subst hsc
    rw [keyboard_handler_backspace s]
    have hb : ¬ (BCKSPACE = '\n') := by decide
    unfold counters_agree
    by_cases hn : s.num_char > 0
    · have hc : s.char_count > 0 := by omega
      simp only [if_pos hn, get_char, if_neg hb, if_true, putc, cli, sti, send_eoi, emit,
        if_pos hc]
      exact ⟨fun _ => by omega, fun h => absurd hs0 h, by omega, by omega⟩
    · rw [if_neg hn]
      exact ⟨a1, a2, a3, a4⟩
  by_cases hn : s.num_char < 127
  · obtain ⟨t1, t2⟩ := shifted_not_special sc h58 c1 c3
    have hc1 : spec_resolved_char sc (cli s) ≠ '\n' := by
      rcases spec_resolved_char_cases sc (cli s) with h | h <;> rw [h] <;> assumption
    have hc2 : spec_resolved_char sc (cli s) ≠ BCKSPACE := by
      rcases spec_resolved_char_cases sc (cli s) with h | h <;> rw [h] <;> assumption
    have hcc : (cli s).char_count < 127 := by show s.char_count < 127; omega
    rw [keyboard_handler_key sc s hm h2 h58, handle_key_emit sc (cli s) c1 c2 c3 hn,
      echo_and_store_plain _ (cli s) hc1 hc2 hcc]
    unfold counters_agree
    simp only [sti, send_eoi, cli, emit]
    exact ⟨fun _ => by omega, fun h => absurd hs0 h, by omega, by omega⟩
  · rw [keyboard_handler_key sc s hm h2 h58, handle_key_full sc (cli s) c1 c2 c3 (by
      show s.num_char ≥ 127; omega)]
    exact ⟨a1, a2, a3, a4⟩

/-- Without type-ahead, every reachable state has its two counters in
agreement. -/
theorem reachable_counters_agree (s : DriverState) (h : ReachableNoTypeAhead s) :
    counters_agree s := by
  induction h with
  | start => exact ⟨fun _ => rfl, fun h => absurd rfl h, le_rfl, by decide⟩
  | key sc s _ hquiet ih => exact keyboard_handler_counters_agree sc s ih hquiet
  | read fd buf nbytes s r _ hr ih =>
    obtain ⟨h0, h1, h2, h3⟩ := terminal_read_state fd buf nbytes s r hr
    obtain ⟨a1, a2, a3, a4⟩ := ih
    unfold counters_agree
    rw [h1, h2, h3, a2 h0]
    exact ⟨fun _ => rfl, fun h => absurd rfl h, le_rfl, by norm_num⟩

/-- C20, refuted: Enter, the key `a`, and a `terminal_read` lead to a state
with `enter_flag` clear, `num_char = 1` and `char_count = 0`. -/
theorem counters_drift_counterexample :
    ∃ r, terminal_read 0 (fun _ => 'x') 128 (handle_keys [0x1C, 0x1E] init) = some r ∧
      Reachable r.state ∧ r.state.enter_flag = 0 ∧ r.state.num_char = 1 ∧
      r.state.char_count = 0 := by
  have hreach : Reachable (keyboard_handler 0x1E (keyboard_handler 0x1C init)) :=
    Reachable.key 0x1E (keyboard_handler 0x1C init) (Reachable.key 0x1C init Reachable.start)
  have hs : handle_keys [0x1C, 0x1E] init = keyboard_handler 0x1E (keyboard_handler 0x1C init) :=
    rfl
  have hflag : (handle_keys [0x1C, 0x1E] init).enter_flag ≠ 0 := by decide
  have hnum : (handle_keys [0x1C, 0x1E] init).num_char = 1 := by decide
  rw [← hs] at hreach
  generalize handle_keys [0x1C, 0x1E] init = s at hreach hflag hnum ⊢
  have hr := terminal_read_eq 0 (fun _ => 'x') 128 s hflag _ rfl
  refine ⟨_, hr, Reachable.read 0 (fun _ => 'x') 128 s _ hreach hr, rfl, hnum, rfl⟩

/-- C20, as the code behaves: in every state reached without a line-editing
key being handled while `enter_flag` is set (reads are taken only when
`enter_flag` is set), whenever `enter_flag` is clear `num_char` equals
`char_count`. -/
theorem counters_equal_without_type_ahead (s : DriverState) (h : ReachableNoTypeAhead s)
    (h0 : s.enter_flag = 0) : s.num_char = s.char_count :=
  (reachable_counters_agree s h).1 h0

/-- C20 at the state reached by typing `a`, where both counters are 1. -/
theorem counters_equal_without_type_ahead_witness :
    ReachableNoTypeAhead (keyboard_handler 0x1E init) ∧
    (keyboard_handler 0x1E init).enter_flag = 0 ∧
    (keyboard_handler 0x1E init).num_char = (keyboard_handler 0x1E init).char_count :=
  have hr : ReachableNoTypeAhead (keyboard_handler 0x1E init) :=
    ReachableNoTypeAhead.key 0x1E init ReachableNoTypeAhead.start (fun h => absurd rfl h)
  ⟨hr, by decide, counters_equal_without_type_ahead _ hr (by decide)⟩

/-! ## Array bounds -/

/-- With `char_count` not negative, `get_char` subscripts `char_buffer` inside
`0..127`. -/
theorem get_char_accesses_in_bounds (c : Char) (s : DriverState) (h : 0 ≤ s.char_count) :
    ∀ i ∈ get_char_accesses c s, 0 ≤ i ∧ i ≤ 127 := by
  intro i hi
  unfold get_char_accesses at hi
  simp only [BUFFER_SIZE] at hi
  split_ifs at hi <;> simp at hi <;> omega

/-- With `char_count` not negative, the key-decoding chain subscripts
`char_buffer` inside `0..127`. -/
theorem handle_key_buffer_accesses_in_bounds (scan_code : Nat) (s : DriverState)
    (h : 0 ≤ s.char_count) :
    ∀ i ∈ handle_key_buffer_accesses scan_code s, 0 ≤ i ∧ i ≤ 127 := by
  intro i hi
  unfold handle_key_buffer_accesses at hi
  simp only [] at hi
  split_ifs at hi <;>
    first
    | exact absurd hi (List.not_mem_nil i)
    | exact get_char_accesses_in_bounds _ _ (by exact h) i hi

/-- The key-decoding chain subscripts `scan_to_ascii` at row `scan_code` and
column 0 or 1 only. -/
theorem handle_key_table_accesses_row (scan_code : Nat) (s : DriverState) :
    ∀ p ∈ handle_key_table_accesses scan_code s, p.1 = scan_code ∧ p.2 ≤ 1 := by
  unfold handle_key_table_accesses
  simp only []
  split_ifs <;> simp

/-- The loop of the branch `nbytes < BUFFER_SIZE`, entered at `i0` with
`remaining` iterations left, subscripts `char_buffer` from `i0` on and below
`i0 + remaining`. -/
theorem copy_loop_small_accesses_range (nbytes : Int) (remaining : Nat) :
    ∀ (i0 : Int) (cb : Int → Char), ∀ i ∈ copy_loop_small_accesses nbytes remaining i0 cb,
      i0 ≤ i ∧ i < i0 + remaining := by
  induction remaining with
  | zero => intro i0 cb i hi; simp [copy_loop_small_accesses] at hi
  | succ n ih =>
    intro i0 cb i hi
    unfold copy_loop_small_accesses at hi
    split_ifs at hi
    · simp at hi; omega
    · simp at hi; omega
    · rcases List.mem_cons.mp hi with h | h
      · omega
      · have := ih _ _ i h
        omega

/-- The loop of the branch `nbytes >= BUFFER_SIZE`, entered at `i0` with
`remaining` iterations left, subscripts `char_buffer` from `i0` on and below
`i0 + remaining`. -/
theorem copy_loop_full_accesses_range (remaining : Nat) :
    ∀ (i0 : Int) (cb : Int → Char), ∀ i ∈ copy_loop_full_accesses remaining i0 cb,
      i0 ≤ i ∧ i < i0 + remaining := by
  induction remaining with
  | zero => intro i0 cb i hi; simp [copy_loop_full_accesses] at hi
  | succ n ih =>
    intro i0 cb i hi
    unfold copy_loop_full_accesses at hi
    split_ifs at hi
    · simp at hi; omega
    · rcases List.mem_cons.mp hi with h | h
      · omega
      · have := ih _ _ i h
        omega

/-- With `char_count` not negative, `keyboard_handler` subscripts `char_buffer`
inside `0..127`; in every state it subscripts `scan_to_ascii` at a row inside
`0..57` and column 0 or 1, and `terminal_read` subscripts `char_buffer` inside
`0..127`. -/
theorem accesses_in_bounds (s : DriverState) :
    (0 ≤ s.char_count →
      ∀ scan_code, ∀ i ∈ keyboard_handler_buffer_accesses scan_code s, 0 ≤ i ∧ i ≤ 127) ∧
    (∀ scan_code, ∀ p ∈ keyboard_handler_table_accesses scan_code s, p.1 ≤ 57 ∧ p.2 ≤ 1) ∧
    (∀ nbytes, ∀ i ∈ terminal_read_accesses nbytes s, 0 ≤ i ∧ i ≤ 127) := by
  refine ⟨?_, ?_, ?_⟩
  · intro hcc sc i hi
    unfold keyboard_handler_buffer_accesses at hi
    simp only [] at hi
    split_ifs at hi
    · exact absurd hi (List.not_mem_nil i)
    · exact absurd hi (List.not_mem_nil i)
    · refine handle_key_buffer_accesses_in_bounds sc _ ?_ i hi
      rw [(check_for_modifier_frame sc (cli s)).2.1]
      exact hcc
  · intro sc p hp
    unfold keyboard_handler_table_accesses at hp
    simp only [SCANCODES_SIZE] at hp
    split_ifs at hp with h1 h2
    · exact absurd hp (List.not_mem_nil p)
    · exact absurd hp (List.not_mem_nil p)
    · obtain ⟨e1, e2⟩ := handle_key_table_accesses_row sc _ p hp
      exact ⟨by omega, e2⟩
  · intro nbytes i hi
    unfold terminal_read_accesses at hi
    simp only [BUFFER_SIZE] at hi
    split_ifs at hi with h0 hlt
    · exact absurd hi (List.not_mem_nil i)
    · have := copy_loop_small_accesses_range nbytes nbytes.toNat 0 s.char_buffer i hi
      omega
    · have := copy_loop_full_accesses_range (Int.toNat 128) 0 s.char_buffer i hi
      simp at this
      omega

/-- The key `a` with no modifier active and `num_char < 127`: `a` is echoed and
handed to `get_char`. -/
theorem keyboard_handler_a (s : DriverState) (hl : s.l_shift_flag = 0)
    (hr : s.r_shift_flag = 0) (hc : s.ctrl_flag = 0) (hcaps : s.caps_flag = 0)
    (hnum : s.num_char < 127) :
    keyboard_handler 0x1E s = sti (send_eoi 1 (echo_and_store 'a' (cli s))) := by
  have hm : (0x1E : Nat) ∉ modifier_codes := by decide
  have hbase : scan_to_ascii 0x1E 0 = 'a' := by decide
  have h1 : scan_to_ascii 0x1E 0 ≠ '\n' := by decide
  have h3 : scan_to_ascii 0x1E 0 ≠ BCKSPACE := by decide
  have h2 : ¬ ((cli s).ctrl_flag > 0 ∧ scan_to_ascii 0x1E 0 = 'l') := by
    intro h
    have : s.ctrl_flag > 0 := h.1
    omega
  have hres : spec_resolved_char 0x1E (cli s) = 'a' := by
    unfold spec_resolved_char
    have hshift : ¬ ((cli s).l_shift_flag ≠ 0 ∨ (cli s).r_shift_flag ≠ 0) := by
      intro h
      rcases h with h | h
      · exact h hl
      · exact h hr
    have hcap : ¬ ((cli s).caps_flag ≠ 0 ∧ in_letter_region 0x1E) := fun h => h.1 hcaps
    have hx : ¬ Xor' ((cli s).l_shift_flag ≠ 0 ∨ (cli s).r_shift_flag ≠ 0)
        ((cli s).caps_flag ≠ 0 ∧ in_letter_region 0x1E) := by
      intro h
      rcases h with h | h
      · exact hshift h.1
      · exact hcap h.1
    rw [if_neg hx, hbase]
  rw [keyboard_handler_key 0x1E s hm (by decide) (by decide),
    handle_key_emit 0x1E (cli s) h1 h2 h3 hnum, hres]

/-- One round of typing ahead (Enter, then `a`) with no modifier active and
`char_count` within `0 .. INT_MAX - 1`: `char_count` goes up by one, whether
the character is stored or only counted, and `num_char` is 1 afterwards. -/
theorem type_ahead_round_counts (s : DriverState) (hl : s.l_shift_flag = 0)
    (hr : s.r_shift_flag = 0) (hc : s.ctrl_flag = 0) (hcaps : s.caps_flag = 0) :
    (type_ahead_round s).l_shift_flag = 0 ∧ (type_ahead_round s).r_shift_flag = 0 ∧
    (type_ahead_round s).ctrl_flag = 0 ∧ (type_ahead_round s).caps_flag = 0 ∧
    (type_ahead_round s).num_char = 1 ∧
    (type_ahead_round s).char_count =
      if s.char_count < 127 then s.char_count + 1 else wrap_int32 (s.char_count + 1) := by
  have he := keyboard_handler_enter s
  have e1 : (keyboard_handler 0x1C s).l_shift_flag = 0 := by rw [he]; exact hl
  have e2 : (keyboard_handler 0x1C s).r_shift_flag = 0 := by rw [he]; exact hr
  have e3 : (keyboard_handler 0x1C s).ctrl_flag = 0 := by rw [he]; exact hc
  have e4 : (keyboard_handler 0x1C s).caps_flag = 0 := by rw [he]; exact hcaps
  have e5 : (keyboard_handler 0x1C s).num_char = 0 := by rw [he]
  have e6 : (keyboard_handler 0x1C s).char_count = s.char_count := by rw [he]
  unfold type_ahead_round
  generalize keyboard_handler 0x1C s = s1 at e1 e2 e3 e4 e5 e6 ⊢
  rw [keyboard_handler_a s1 e1 e2 e3 e4 (by omega), ← e6]
  have ha1 : ¬ ('a' = '\n') := by decide
  have ha2 : ¬ ('a' = BCKSPACE) := by decide
  simp only [echo_and_store, get_char, putc, cli, sti, send_eoi, emit, if_neg ha1, if_neg ha2,
    BUFFER_SIZE]
  split_ifs with h1 h2 h2
  · exact ⟨e1, e2, e3, e4, by show s1.num_char + 1 = 1; omega, rfl⟩
  · omega
  · omega
  · exact ⟨e1, e2, e3, e4, by show s1.num_char + 1 = 1; omega, rfl⟩

/-- After `n <= INT_MAX` rounds of typing ahead from the initial state no
modifier is active and `char_count` is `n`. -/
theorem type_ahead_rounds (n : Nat) (hn : n ≤ 2147483647) :
    (Nat.iterate type_ahead_round n init).l_shift_flag = 0 ∧
    (Nat.iterate type_ahead_round n init).r_shift_flag = 0 ∧
    (Nat.iterate type_ahead_round n init).ctrl_flag = 0 ∧
    (Nat.iterate type_ahead_round n init).caps_flag = 0 ∧
    (Nat.iterate type_ahead_round n init).char_count = n := by
  induction n with
  | zero => exact ⟨rfl, rfl, rfl, rfl, rfl⟩
  | succ k ih =>
    obtain ⟨h1, h2, h3, h4, h5⟩ := ih (by omega)
    rw [Function.iterate_succ_apply']
    generalize Nat.iterate type_ahead_round k init = s at h1 h2 h3 h4 h5 ⊢
    obtain ⟨g1, g2, g3, g4, _, g6⟩ := type_ahead_round_counts s h1 h2 h3 h4
    refine ⟨g1, g2, g3, g4, ?_⟩
    rw [g6, h5]
    unfold wrap_int32
    split_ifs <;> push_cast <;> omega

/-- Every number of rounds of typing ahead leads to a reachable state. -/
theorem reachable_type_ahead_rounds (n : Nat) :
    Reachable (Nat.iterate type_ahead_round n init) := by
  induction n with
  | zero => exact Reachable.start
  | succ k ih =>
    rw [Function.iterate_succ_apply']
    exact Reachable.key 0x1E _ (Reachable.key 0x1C _ ih)

/-- A round of typing ahead that starts with `char_count = INT_MAX` and no
modifier active wraps `char_count` to `INT_MIN`. -/
theorem type_ahead_round_wraps (s : DriverState) (hl : s.l_shift_flag = 0)
    (hr : s.r_shift_flag = 0) (hc : s.ctrl_flag = 0) (hcaps : s.caps_flag = 0)
    (hmax : s.char_count = 2147483647) :
    (type_ahead_round s).l_shift_flag = 0 ∧ (type_ahead_round s).r_shift_flag = 0 ∧
    (type_ahead_round s).ctrl_flag = 0 ∧ (type_ahead_round s).caps_flag = 0 ∧
    (type_ahead_round s).num_char = 1 ∧ (type_ahead_round s).char_count = -2147483648 := by
  obtain ⟨g1, g2, g3, g4, g5, g6⟩ := type_ahead_round_counts s hl hr hc hcaps
  refine ⟨g1, g2, g3, g4, g5, ?_⟩
  rw [g6, hmax, if_neg (by norm_num)]
  unfold wrap_int32
  norm_num

/-- In a state with `char_count = INT_MIN`, no modifier active and
`num_char = 1`, the key `a` passes the test `char_count < BUFFER_SIZE - 1` and
is stored at `char_buffer[-2147483648]`. -/
theorem store_below_zero (t : DriverState) (g1 : t.l_shift_flag = 0)
    (g2 : t.r_shift_flag = 0) (g3 : t.ctrl_flag = 0) (g4 : t.caps_flag = 0)
    (g5 : t.num_char = 1) (hcount : t.char_count = -2147483648) :
    keyboard_handler_buffer_accesses 0x1E t = [-2147483648] ∧
    (keyboard_handler 0x1E t).char_buffer (-2147483648) = 'a' := by
  have ha1 : ¬ ('a' = '\n') := by decide
  have ha2 : ¬ ('a' = BCKSPACE) := by decide
  have hlt : t.char_count < BUFFER_SIZE - 1 := by rw [hcount]; norm_num [BUFFER_SIZE]
  refine ⟨?_, ?_⟩
  · have hm : (0x1E : Nat) ∉ modifier_codes := by decide
    have hbase : scan_to_ascii 0x1E 0 = 'a' := by decide
    have hctrl : ¬ ((cli t).ctrl_flag > 0 ∧ 'a' = 'l') := fun h => by
      have h0 : t.ctrl_flag > 0 := h.1
      rw [g3] at h0
      exact absurd h0 (lt_irrefl 0)
    have hshift : ¬ (((cli t).l_shift_flag ≠ 0 ∨ (cli t).r_shift_flag ≠ 0) ∧
        (cli t).num_char < BUFFER_MAX) := by
      intro h
      rcases h.1 with h | h
      · exact h g1
      · exact h g2
    have hcaps : ¬ ((cli t).caps_flag ≠ 0 ∧ (cli t).num_char < BUFFER_MAX) := fun h => h.1 g4
    have hnum : (cli t).num_char < BUFFER_MAX := by
      show t.num_char < BUFFER_MAX
      rw [g5]
      norm_num [BUFFER_MAX]
    have hrange : ¬ ((0x1E : Nat) ≥ SCANCODES_SIZE ∨ (0x1E : Nat) ≤ 1) := by decide
    have hlt1 : (putc 'a' (cli t)).char_count < BUFFER_SIZE - 1 := hlt
    have hacc : keyboard_handler_buffer_accesses 0x1E t =
        handle_key_buffer_accesses 0x1E (cli t) := by
      unfold keyboard_handler_buffer_accesses
      simp only [check_for_modifier_other _ _ hm]
      rw [if_neg (by simp), if_neg hrange]
    rw [hacc]
    unfold handle_key_buffer_accesses
    rw [hbase, if_neg ha1, if_neg hctrl, if_neg ha2, if_neg hshift, if_neg hcaps, if_pos hnum]
    unfold get_char_accesses
    rw [if_neg ha1, if_neg ha2, if_pos hlt1]
    exact congrArg (fun x => [x]) hcount
  · rw [keyboard_handler_a t g1 g2 g3 g4 (by rw [g5]; norm_num)]
    have hlt2 : (putc 'a' (cli t)).char_count < BUFFER_SIZE - 1 := hlt
    have hg : get_char 'a' (putc 'a' (cli t)) =
        { putc 'a' (cli t) with
          char_buffer := Function.update (putc 'a' (cli t)).char_buffer
            (putc 'a' (cli t)).char_count 'a'
          char_count := (putc 'a' (cli t)).char_count + 1 } := by
      unfold get_char
      rw [if_neg ha1, if_neg ha2, if_pos hlt2]
    have hbuf : (sti (send_eoi 1 (echo_and_store 'a' (cli t)))).char_buffer =
        Function.update t.char_buffer t.char_count 'a' := by
      show (get_char 'a' (putc 'a' (cli t))).char_buffer = _
      rw [hg]
      rfl
    rw [hbuf, hcount]
    exact Function.update_same _ _ _

/-- C19, at the state reached from the initial state by `2^31` rounds of
typing ahead (Enter, then `a`, with no `terminal_read`): the last `++char_count`
has wrapped `char_count` from `INT_MAX` to `INT_MIN`, and the next key `a`
passes the test `char_count < BUFFER_SIZE - 1` and is stored at
`char_buffer[-2147483648]`. -/
theorem char_buffer_written_below_zero :
    Reachable (Nat.iterate type_ahead_round 2147483648 init) ∧
    (Nat.iterate type_ahead_round 2147483647 init).char_count = 2147483647 ∧
    (Nat.iterate type_ahead_round 2147483648 init).char_count = -2147483648 ∧
    keyboard_handler_buffer_accesses 0x1E (Nat.iterate type_ahead_round 2147483648 init) =
      [-2147483648] ∧
    (keyboard_handler 0x1E (Nat.iterate type_ahead_round 2147483648 init)).char_buffer
      (-2147483648) = 'a' := by
  obtain ⟨h1, h2, h3, h4, h5⟩ := type_ahead_rounds 2147483647 le_rfl
  have hstep : Nat.iterate type_ahead_round 2147483648 init =
      type_ahead_round (Nat.iterate type_ahead_round 2147483647 init) :=
    Function.iterate_succ_apply' type_ahead_round 2147483647 init
  have hw := type_ahead_round_wraps (Nat.iterate type_ahead_round 2147483647 init) h1 h2 h3 h4 h5
  rw [← hstep] at hw
  obtain ⟨w1, w2, w3, w4, w5, w6⟩ := hw
  have hs := store_below_zero (Nat.iterate type_ahead_round 2147483648 init) w1 w2 w3 w4 w5 w6
  exact ⟨reachable_type_ahead_rounds 2147483648, h5, w6, hs.1, hs.2⟩

/-! ## Line editing against the reference model -/

/-- On a modifier code the handler applies `check_for_modifier` between `cli`
and `send_eoi(1)`, `sti` and does nothing else. -/
theorem keyboard_handler_modifier (scan_code : Nat) (s : DriverState)
    (h : scan_code ∈ modifier_codes) :
    keyboard_handler scan_code s =
      { (check_for_modifier scan_code s).2 with
        trace := s.trace ++ [Event.cli, Event.send_eoi 1, Event.sti] } := by
  have h1 : (check_for_modifier scan_code (cli s)).1 = 1 := check_for_modifier_fst _ _ h
  have hk : keyboard_handler scan_code s =
      sti (send_eoi KEYBOARD_IRQ_NUM (check_for_modifier scan_code (cli s)).2) := by
    simp [keyboard_handler, h1]
  simp only [modifier_codes, List.mem_cons, List.mem_singleton, List.not_mem_nil,
    or_false] at h
  rw [hk]
  rcases h with h | h | h | h | h | h | h <;> subst h <;>
    simp [check_for_modifier, sti, send_eoi, cli, emit, KEYBOARD_IRQ_NUM, LEFT_SHIFT_PRESS,
      LEFT_SHIFT_RELEASE, RIGHT_SHIFT_PRESS, RIGHT_SHIFT_RELEASE, CTRL_PRESS, CTRL_RELEASE,
      CAPS_PRESS]

/-- Under matching modifier flags the driver and the reference editor decode a
key to the same character. -/
theorem spec_resolved_char_eq_ref_decode (scan_code : Nat) (s : DriverState) (r : RefState)
    (h1 : s.l_shift_flag ≠ 0 ↔ r.l_shift = true) (h2 : s.r_shift_flag ≠ 0 ↔ r.r_shift = true)
    (h3 : s.caps_flag ≠ 0 ↔ r.caps = true) :
    spec_resolved_char scan_code s = ref_decode scan_code r := by
  unfold spec_resolved_char ref_decode
  simp only [h1, h2, h3]

/-- One key event keeps the driver and the reference editor in step. -/
theorem matches_ref_step (sc : Nat) (s : DriverState) (r : RefState) (h : matches_ref s r)
    (hev : line_event sc) : matches_ref (keyboard_handler sc s) (ref_step r sc) := by
  obtain ⟨m1, m2, m3, m4, m5, m6, m7, m8, m9, m10⟩ := h
  rcases hev with hp | hb | hmod
  · -- a printable key
    have hm := printable_code_not_modifier sc hp
    have hp' := hp
    obtain ⟨h2, h58, _, hne, hnb⟩ := hp
    have hcodes : sc ≠ 0x2A ∧ sc ≠ 0xAA ∧ sc ≠ 0x36 ∧ sc ≠ 0xB6 ∧ sc ≠ 0x3A := by
      simp only [modifier_codes, List.mem_cons, List.mem_singleton, List.not_mem_nil,
        or_false, not_or] at hm
      exact ⟨hm.1, hm.2.1, hm.2.2.1, hm.2.2.2.1, hm.2.2.2.2.2.2⟩
    have hbs : sc ≠ 0x0E := by
      intro h
      subst h
      exact hnb (by decide)
    have hctrl : ¬ ((cli s).ctrl_flag > 0 ∧ scan_to_ascii sc 0 = 'l') := by
      intro hc
      have : s.ctrl_flag > 0 := hc.1
      omega
    have hstep : ref_step r sc =
        if r.line.length < 127 then { r with line := r.line ++ [ref_decode sc r] } else r := by
      unfold ref_step
      rw [if_neg hcodes.1, if_neg hcodes.2.1, if_neg hcodes.2.2.1, if_neg hcodes.2.2.2.1,
        if_neg hcodes.2.2.2.2, if_neg hbs, if_pos hp']
    rw [hstep, keyboard_handler_key sc s hm h2 h58]
    by_cases hlen : r.line.length < 127
    · have hn : (cli s).num_char < 127 := by show s.num_char < 127; omega
      have hcc : (cli s).char_count < 127 := by show s.char_count < 127; omega
      obtain ⟨t1, t2⟩ := shifted_not_special sc h58 hne hnb
      have hc1 : spec_resolved_char sc (cli s) ≠ '\n' := by
        rcases spec_resolved_char_cases sc (cli s) with h | h <;> rw [h] <;> assumption
      have hc2 : spec_resolved_char sc (cli s) ≠ BCKSPACE := by
        rcases spec_resolved_char_cases sc (cli s) with h | h <;> rw [h] <;> assumption
      have hdec : spec_resolved_char sc (cli s) = ref_decode sc r :=
        spec_resolved_char_eq_ref_decode sc (cli s) r m1 m2 m3
      rw [if_pos hlen, handle_key_emit sc (cli s) hne hctrl hnb hn,
        echo_and_store_plain _ (cli s) hc1 hc2 hcc, hdec]
      rw [hdec] at hc1
      refine ⟨m1, m2, m3, m4, m5, ?_, ?_, ?_, ?_, ?_⟩
      · show s.num_char + 1 = _
        simp only [List.length_append, List.length_singleton]; push_cast; omega
      · show s.char_count + 1 = _
        simp only [List.length_append, List.length_singleton]; push_cast; omega
      · simp only [List.length_append, List.length_singleton]; omega
      · intro i hi
        show Function.update s.char_buffer s.char_count (ref_decode sc r) i = _
        have hi2 : i < r.line.length + 1 := by simpa using hi
        by_cases hlast : i < r.line.length
        · rw [Function.update_noteq (by omega), m9 i hlast]
          simp [List.getElem_append_left, hlast]
        · have he : i = r.line.length := by omega
          subst he
          rw [m7, Function.update_same]
          simp
      · intro c hc
        rcases List.mem_append.mp hc with h | h
        · exact m10 c h
        · rw [List.mem_singleton.mp h]; exact hc1
    · have hn : (cli s).num_char ≥ 127 := by show s.num_char ≥ 127; omega
      rw [if_neg hlen, handle_key_full sc (cli s) hne hctrl hnb hn]
      exact ⟨m1, m2, m3, m4, m5, m6, m7, m8, m9, m10⟩
  · -- Backspace
    subst hb
    have hstep : ref_step r 0x0E =
        if r.line ≠ [] then { r with line := r.line.dropLast } else r := by
      unfold ref_step
      rw [if_neg (by decide), if_neg (by decide), if_neg (by decide), if_neg (by decide),
        if_neg (by decide), if_pos rfl]
    rw [hstep, keyboard_handler_backspace s]
    have hbn : ¬ (BCKSPACE = '\n') := by decide
    by_cases hne : r.line ≠ []
    · have hpos : 0 < r.line.length := List.length_pos.mpr hne
      have hn : s.num_char > 0 := by omega
      have hc : s.char_count > 0 := by omega
      rw [if_pos hne, if_pos hn]
      simp only [get_char, if_neg hbn, if_true, putc, cli, sti, send_eoi, emit, if_pos hc]
      refine ⟨m1, m2, m3, m4, m5, ?_, ?_, ?_, ?_, ?_⟩
      · show s.num_char - 1 = _
        rw [List.length_dropLast]; omega
      · show s.char_count - 1 = _
        rw [List.length_dropLast]; omega
      · rw [List.length_dropLast]; omega
      · intro i hi
        have hi2 : i < r.line.length - 1 := by simpa using hi
        show s.char_buffer i = _
        rw [m9 i (by omega)]
        simp [List.getElem_dropLast]
      · intro c hc0
        exact m10 c (List.dropLast_subset _ hc0)
    · have hn : ¬ (s.num_char > 0) := by
        have : r.line = [] := not_not.mp hne
        rw [m6, this]; simp
      rw [if_neg hne, if_neg hn]
      exact ⟨m1, m2, m3, m4, m5, m6, m7, m8, m9, m10⟩
  · -- a shift or caps-lock code
    have hm : sc ∈ modifier_codes := by
      simp only [List.mem_cons, List.mem_singleton, List.not_mem_nil, or_false] at hmod
      simp only [modifier_codes, List.mem_cons, List.mem_singleton, List.not_mem_nil, or_false]
      omega
    rw [keyboard_handler_modifier sc s hm]
    simp only [List.mem_cons, List.mem_singleton, List.not_mem_nil, or_false] at hmod
    rcases hmod with h | h | h | h | h <;> subst h
    · exact ⟨by simp [check_for_modifier, LEFT_SHIFT_PRESS, ref_step], m2, m3, m4, m5, m6, m7,
        m8, m9, m10⟩
    · exact ⟨by simp [check_for_modifier, LEFT_SHIFT_PRESS, LEFT_SHIFT_RELEASE, ref_step], m2,
        m3, m4, m5, m6, m7, m8, m9, m10⟩
    · exact ⟨m1, by simp [check_for_modifier, LEFT_SHIFT_PRESS, LEFT_SHIFT_RELEASE,
        RIGHT_SHIFT_PRESS, ref_step], m3, m4, m5, m6, m7, m8, m9, m10⟩
    · exact ⟨m1, by simp [check_for_modifier, LEFT_SHIFT_PRESS, LEFT_SHIFT_RELEASE,
        RIGHT_SHIFT_PRESS, RIGHT_SHIFT_RELEASE, ref_step], m3, m4, m5, m6, m7, m8, m9, m10⟩
    · refine ⟨m1, m2, ?_, m4, m5, m6, m7, m8, m9, m10⟩
      by_cases hc : s.caps_flag = 0
      · have hr : r.caps = false := by
          cases hcap : r.caps
          · rfl
          · exact absurd hc (m3.mpr hcap)
        simp [check_for_modifier, LEFT_SHIFT_PRESS, LEFT_SHIFT_RELEASE, RIGHT_SHIFT_PRESS,
          RIGHT_SHIFT_RELEASE, CTRL_PRESS, CTRL_RELEASE, CAPS_PRESS, ref_step, hc, hr]
      · have hr : r.caps = true := m3.mp hc
        simp [check_for_modifier, LEFT_SHIFT_PRESS, LEFT_SHIFT_RELEASE, RIGHT_SHIFT_PRESS,
          RIGHT_SHIFT_RELEASE, CTRL_PRESS, CTRL_RELEASE, CAPS_PRESS, ref_step, hc, hr]

/-- A sequence of key events keeps the driver and the reference editor in
step. -/
theorem matches_ref_handle_keys (scan_codes : List Nat) :
    ∀ (s : DriverState) (r : RefState), matches_ref s r →
      (∀ sc ∈ scan_codes, line_event sc) →
      matches_ref (handle_keys scan_codes s) (scan_codes.foldl ref_step r) := by
  induction scan_codes with
  | nil => intro s r h _; exact h
  | cons sc rest ih =>
    intro s r h hev
    exact ih _ _ (matches_ref_step sc s r h (hev sc (List.mem_cons_self _ _)))
      (fun x hx => hev x (List.mem_cons_of_mem _ hx))

/-- Reading back a committed line: when the first `line.length <= 127` slots
of `char_buffer` hold `line`, which has no newline, and `char_count` is its
length, Enter followed by a `terminal_read` with room for the line returns the
line and a newline. -/
theorem read_after_enter (line : List Char) (fd : Int) (buf : Int → Char) (nbytes : Int)
    (s : DriverState) (hcount : s.char_count = line.length) (hlen : line.length ≤ 127)
    (hbody : ∀ (i : Nat) (h : i < line.length), s.char_buffer i = line.get ⟨i, h⟩)
    (hnl : ∀ c ∈ line, c ≠ '\n') (hn : (line.length : Int) + 1 ≤ nbytes) :
    ∃ r, terminal_read fd buf nbytes (keyboard_handler 0x1C s) = some r ∧
      r.ret = line.length + 1 ∧
      (List.range (line.length + 1)).map (fun i : Nat => r.buf i) = line ++ ['\n'] := by
  have henter := keyboard_handler_enter s
  have hidx : (if s.char_count ≥ 128 then (127 : Int) else s.char_count) = line.length := by
    rw [hcount, if_neg (by omega)]
  rw [hidx] at henter
  have hflag : (keyboard_handler 0x1C s).enter_flag ≠ 0 := by
    rw [henter]; exact one_ne_zero
  have hcb : (keyboard_handler 0x1C s).char_buffer =
      Function.update s.char_buffer line.length '\n' := by
    rw [henter]
  generalize keyboard_handler 0x1C s = s1 at hflag hcb ⊢
  have hlast : s1.char_buffer line.length = '\n' := by rw [hcb, Function.update_same]
  have hpre : ∀ (i : Nat) (h : i < line.length), s1.char_buffer i = line.get ⟨i, h⟩ := by
    intro i h
    rw [hcb, Function.update_noteq (by omega)]
    exact hbody i h
  have hfirst : ∀ m : Int, 0 ≤ m → m < line.length → s1.char_buffer m ≠ '\n' := by
    intro m hm0 hm1
    obtain ⟨i, rfl⟩ := Int.eq_ofNat_of_zero_le hm0
    have hi : i < line.length := by omega
    rw [hpre i hi]
    exact hnl _ (List.get_mem _ _ _)
  have hloop : (if nbytes < BUFFER_SIZE then
        copy_loop_small nbytes nbytes.toNat 0 s1.char_buffer buf
      else copy_loop_full BUFFER_SIZE.toNat 0 s1.char_buffer buf) =
      { char_buffer := fun m => if 0 ≤ m ∧ m ≤ (line.length : Int) then ' '
          else s1.char_buffer m,
        buf := fun m => if 0 ≤ m ∧ m ≤ (line.length : Int) then s1.char_buffer m else buf m,
        bytes_read := (line.length : Int) + 1 } := by
    split_ifs with hlt
    · exact copy_loop_small_found nbytes nbytes.toNat 0 line.length s1.char_buffer buf
        (by omega) (by omega) (by omega) hlast hfirst
    · exact copy_loop_full_found BUFFER_SIZE.toNat 0 line.length s1.char_buffer buf
        (by omega) (by simp [BUFFER_SIZE]; omega) hlast hfirst
  refine ⟨_, terminal_read_eq fd buf nbytes s1 hflag _ hloop, rfl, ?_⟩
  apply List.ext_getElem
  · simp
  · intro i hi1 hi2
    have hi : i < line.length + 1 := by simpa using hi1
    have hin : (0 : Int) ≤ i ∧ (i : Int) ≤ line.length := by omega
    simp only [List.getElem_map, List.getElem_range, hin, and_self, if_true]
    by_cases hl : i < line.length
    · rw [hpre i hl, List.getElem_append_left hl]
      rfl
    · have he : i = line.length := by omega
      subst he
      rw [hlast, List.getElem_append_right (by simp)]
      simp

/-- C18: from the initial state, after any sequence of printable keys,
Backspace and shift or caps-lock codes, then Enter, one `terminal_read` with
`nbytes >= 128` returns exactly the line of the reference editor followed by a
newline, and that line has at most 127 characters. -/
theorem line_editing_refines_reference (scan_codes : List Nat) (fd : Int) (buf : Int → Char)
    (nbytes : Int) (hev : ∀ sc ∈ scan_codes, line_event sc) (hn : 128 ≤ nbytes) :
    ∃ r, terminal_read fd buf nbytes (keyboard_handler 0x1C (handle_keys scan_codes init))
        = some r ∧
      r.ret = (ref_line scan_codes).length + 1 ∧
      (List.range ((ref_line scan_codes).length + 1)).map (fun i : Nat => r.buf i) =
        ref_line scan_codes ++ ['\n'] ∧
      (ref_line scan_codes).length ≤ 127 := by
  have h0 : matches_ref init ref_init :=
    ⟨by decide, by decide, by decide, rfl, rfl, rfl, rfl, by decide,
      fun i h => absurd h (Nat.not_lt_zero i), fun c hc => absurd hc (List.not_mem_nil c)⟩
  obtain ⟨_, _, _, _, _, _, m7, m8, m9, m10⟩ :=
    matches_ref_handle_keys scan_codes init ref_init h0 hev
  obtain ⟨r, hr, hret, hbuf⟩ := read_after_enter (scan_codes.foldl ref_step ref_init).line fd buf
    nbytes (handle_keys scan_codes init) m7 m8 m9 m10 (by omega)
  exact ⟨r, hr, hret, hbuf, m8⟩

/-- C18 for the keys shift-press, `h`, shift-release, `i`, `x`, Backspace,
caps-lock, `1`, `a`: the reference line is `Hi1A`. -/
theorem line_editing_refines_reference_witness :
    (∀ sc ∈ [0x2A, 0x23, 0xAA, 0x17, 0x2D, 0x0E, 0x3A, 0x02, 0x1E], line_event sc) ∧
    ref_line [0x2A, 0x23, 0xAA, 0x17, 0x2D, 0x0E, 0x3A, 0x02, 0x1E] = ['H', 'i', '1', 'A'] ∧
    ∃ r, terminal_read 0 (fun _ => 'x') 128
        (keyboard_handler 0x1C
          (handle_keys [0x2A, 0x23, 0xAA, 0x17, 0x2D, 0x0E, 0x3A, 0x02, 0x1E] init)) = some r ∧
      r.ret = (ref_line [0x2A, 0x23, 0xAA, 0x17, 0x2D, 0x0E, 0x3A, 0x02, 0x1E]).length + 1 ∧
      (List.range
          ((ref_line [0x2A, 0x23, 0xAA, 0x17, 0x2D, 0x0E, 0x3A, 0x02, 0x1E]).length + 1)).map
          (fun i : Nat => r.buf i) =
        ref_line [0x2A, 0x23, 0xAA, 0x17, 0x2D, 0x0E, 0x3A, 0x02, 0x1E] ++ ['\n'] ∧
      (ref_line [0x2A, 0x23, 0xAA, 0x17, 0x2D, 0x0E, 0x3A, 0x02, 0x1E]).length ≤ 127 :=
  ⟨by decide, by decide,
    line_editing_refines_reference [0x2A, 0x23, 0xAA, 0x17, 0x2D, 0x0E, 0x3A, 0x02, 0x1E] 0
      (fun _ => 'x') 128 (by decide) (by decide)⟩

end Keyboard
